import Mathlib

/-!
# Verification of the clones-cli reconciliation engine

A shallow embedding of the registry / local-state stores, the schema
normalization pass, the URL identity resolver, and the three-phase sync
orchestrator of the `clones` CLI, together with proofs of the specified
properties.

Conventions:
* JavaScript runtime values reaching the schema normalizer are modelled by
  the inductive type `Jv` (undefined, null, booleans, numbers, strings,
  arrays, objects-as-association-lists).
* Functions that `throw` in TypeScript are modelled with `Except String`.
* External effects (git subprocesses, the filesystem) are modelled by
  oracle structures supplying their results; mutating calls are logged
  explicitly as `Effect`s.
-/

set_option maxHeartbeats 1000000

/-- A JavaScript runtime value, as seen by the schema normalizer. -/
inductive Jv where
  | undef : Jv
  | nullv : Jv
  | bool : Bool → Jv
  | num : Int → Jv
  | str : String → Jv
  | arr : List Jv → Jv
  | obj : List (String × Jv) → Jv

/-- One desired repository: the `RegistryEntry` record of the schema
(the tombstone-aware schema variant used by the registry store). -/
structure RegistryEntry where
  id : String
  host : String
  owner : String
  repo : String
  cloneUrl : String
  description : Option String
  tags : Option (List String)
  defaultRemoteName : String
  updateStrategy : String
  submodules : String
  lfs : String
  managed : Bool
deriving DecidableEq, Repr

/-- The registry document: `{version, repos, tombstones}`. -/
structure Registry where
  version : String
  repos : List RegistryEntry
  tombstones : List String
deriving DecidableEq, Repr

/-- The machine-local state document: `{version, lastSyncRun, repos}` where
`repos` maps a repo id to `{lastSyncedAt}`. -/
structure LocalState where
  version : String
  lastSyncRun : Option String
  repos : List (String × Option String)
deriving DecidableEq, Repr

/-- Default behavior configuration (`DEFAULTS` in config.ts). -/
def DEFAULTS_defaultRemoteName : String := "origin"

def DEFAULTS_updateStrategy : String := "hard-reset"

def DEFAULTS_submodules : String := "none"

def DEFAULTS_lfs : String := "auto"

/-- Property access `fields.key` on a JS object: first binding wins,
absent keys read as `undefined`. -/
def getF (fields : List (String × Jv)) (k : String) : Jv :=
  match fields.find? (fun p => p.1 == k) with
  | some p => p.2
  | none => Jv.undef

/-- `Object.keys` of a JS object, in insertion order. -/
def objKeys (fields : List (String × Jv)) : List String :=
  fields.map Prod.fst

/-- The result triple produced by a normalization pass. -/
structure NormResult (T : Type) where
  data : T
  changed : Bool
  issues : List String
deriving DecidableEq, Repr

/-- `requireString` of schema.ts: a non-empty string or a thrown
`Invalid registry format (missing <label>)`. -/
def requireString (v : Jv) (label : String) : Except String String :=
  match v with
  | Jv.str s =>
    if s.length = 0 then
      Except.error ("Invalid registry format (missing " ++ label ++ ")")
    else
      Except.ok s
  | _ => Except.error ("Invalid registry format (missing " ++ label ++ ")")

/-- The per-entry keys recognised by the registry schema. -/
def REGISTRY_ENTRY_KEYS : List String :=
  ["id", "host", "owner", "repo", "cloneUrl", "description", "tags",
   "defaultRemoteName", "updateStrategy", "submodules", "lfs", "managed"]

/-- The top-level keys recognised by the local-state schema. -/
def LOCAL_STATE_KEYS : List String :=
  ["version", "lastSyncRun", "repos"]

def entryIssuePrefix (index : Nat) : String :=
  "registry.repos[" ++ toString index ++ "] "

/-- `normalizeRegistryEntry` of schema.ts: drops unknown fields, enforces
the identity fields, defaults invalid enumerated fields, and filters tags. -/
def normalizeRegistryEntry (fields : List (String × Jv)) (index : Nat) :
    Except String (RegistryEntry × Bool × List String) := do
  let unknownIssues : List String :=
    (objKeys fields).filterMap (fun k =>
      if REGISTRY_ENTRY_KEYS.contains k then none
      else some (entryIssuePrefix index ++ "dropped unknown field \"" ++ k ++ "\""))
  let id ← requireString (getF fields "id") "id"
  let host ← requireString (getF fields "host") "host"
  let owner ← requireString (getF fields "owner") "owner"
  let repo ← requireString (getF fields "repo") "repo"
  let cloneUrl ← requireString (getF fields "cloneUrl") "cloneUrl"
  let drnPair : String × Bool :=
    match getF fields "defaultRemoteName" with
    | Jv.str s => if s.length > 0 then (s, false) else (DEFAULTS_defaultRemoteName, true)
    | _ => (DEFAULTS_defaultRemoteName, true)
  let usPair : String × Bool :=
    match getF fields "updateStrategy" with
    | Jv.str s =>
      if s = "ff-only" ∨ s = "hard-reset" then (s, false) else (DEFAULTS_updateStrategy, true)
    | _ => (DEFAULTS_updateStrategy, true)
  let smPair : String × Bool :=
    match getF fields "submodules" with
    | Jv.str s =>
      if s = "recursive" ∨ s = "none" then (s, false) else (DEFAULTS_submodules, true)
    | _ => (DEFAULTS_submodules, true)
  let lfsPair : String × Bool :=
    match getF fields "lfs" with
    | Jv.str s =>
      if s = "auto" ∨ s = "always" ∨ s = "never" then (s, false) else (DEFAULTS_lfs, true)
    | _ => (DEFAULTS_lfs, true)
  let mgPair : Bool × Bool :=
    match getF fields "managed" with
    | Jv.bool b => (b, false)
    | _ => (true, true)
  let description : Option String :=
    match getF fields "description" with
    | Jv.str s => some s
    | _ => none
  let tagsTriple : Option (List String) × Bool × List String :=
    match getF fields "tags" with
    | Jv.arr xs =>
      let filtered := xs.filterMap (fun v => match v with | Jv.str s => some s | _ => none)
      let tags := if filtered.length > 0 then some filtered else none
      if filtered.length ≠ xs.length then
        (tags, true, [entryIssuePrefix index ++ "dropped non-string tags"])
      else
        (tags, false, [])
    | Jv.undef => (none, false, [])
    | _ => (none, true, [entryIssuePrefix index ++ "dropped invalid tags"])
  let fieldIssues : List String :=
    (if drnPair.2 then [entryIssuePrefix index ++ "defaulted defaultRemoteName"] else []) ++
    (if usPair.2 then [entryIssuePrefix index ++ "defaulted updateStrategy"] else []) ++
    (if smPair.2 then [entryIssuePrefix index ++ "defaulted submodules"] else []) ++
    (if lfsPair.2 then [entryIssuePrefix index ++ "defaulted lfs"] else []) ++
    (if mgPair.2 then [entryIssuePrefix index ++ "defaulted managed"] else []) ++
    tagsTriple.2.2
  let changed : Bool :=
    (!unknownIssues.isEmpty) || drnPair.2 || usPair.2 || smPair.2 || lfsPair.2 ||
      mgPair.2 || tagsTriple.2.1
  let entry : RegistryEntry :=
    { id := id, host := host, owner := owner, repo := repo, cloneUrl := cloneUrl,
      description := description, tags := tagsTriple.1,
      defaultRemoteName := drnPair.1, updateStrategy := usPair.1,
      submodules := smPair.1, lfs := lfsPair.1, managed := mgPair.1 }
  pure (entry, changed, unknownIssues ++ fieldIssues)

/-- Iterate `normalizeRegistryEntry` over the raw `repos` array
(`raw.repos.map` in schema.ts), threading the index. -/
def normalizeEntries : List Jv → Nat → Except String (List RegistryEntry × Bool × List String)
  | [], _ => Except.ok ([], false, [])
  | v :: rest, i =>
    match v with
    | Jv.obj f => do
      let (e, c, iss) ← normalizeRegistryEntry f i
      let (es, c2, iss2) ← normalizeEntries rest (i + 1)
      pure (e :: es, c || c2, iss ++ iss2)
    | _ => Except.error ("Invalid registry format (repos[" ++ toString i ++ "])")

/-- `Array.from(new Set(xs))`: deduplicate keeping first occurrences. -/
def dedupFirst : List String → List String
  | [] => []
  | x :: rest => x :: dedupFirst (rest.filter (fun y => y ≠ x))
termination_by l => l.length
decreasing_by
  simp only [List.length_cons]
  exact Nat.lt_succ_of_le (List.length_filter_le _ rest)

/-- `normalizeRegistry` of schema.ts (tombstone-aware variant): validates
the document shape, normalizes each entry, filters/deduplicates tombstones
and discards tombstones that name a still-active repo id. -/
def normalizeRegistry (raw : Jv) : Except String (NormResult Registry) :=
  match raw with
  | Jv.obj fields => do
    let topIssues : List String :=
      (objKeys fields).filterMap (fun k =>
        if k = "version" ∨ k = "repos" ∨ k = "tombstones" then none
        else some ("registry dropped unknown field \"" ++ k ++ "\""))
    match getF fields "version" with
    | Jv.str _ =>
      match getF fields "repos" with
      | Jv.arr repoVals => do
        let (repos, entriesChanged, entryIssues) ← normalizeEntries repoVals 0
        let tombTriple : List String × Bool × List String :=
          match getF fields "tombstones" with
          | Jv.arr ts =>
            let filtered := ts.filterMap (fun v =>
              match v with
              | Jv.str s => if s.length > 0 then some s else none
              | _ => none)
            if filtered.length ≠ ts.length then
              (filtered, true, ["registry dropped invalid tombstones"])
            else
              (filtered, false, [])
          | Jv.undef => ([], false, [])
          | _ => ([], true, ["registry dropped invalid tombstones"])
        let repoIds := repos.map RegistryEntry.id
        let withoutActive := tombTriple.1.filter (fun id => ¬ repoIds.contains id)
        let activePair : Bool × List String :=
          if withoutActive.length ≠ tombTriple.1.length then
            (true, ["registry removed tombstones that are active repos"])
          else
            (false, [])
        let deduped := dedupFirst withoutActive
        let dupPair : Bool × List String :=
          if deduped.length ≠ withoutActive.length then
            (true, ["registry removed duplicate tombstones"])
          else
            (false, [])
        let changed : Bool :=
          (!topIssues.isEmpty) || entriesChanged || tombTriple.2.1 ||
            activePair.1 || dupPair.1
        pure { data := { version := "1.0.0", repos := repos, tombstones := deduped },
               changed := changed,
               issues := topIssues ++ entryIssues ++ tombTriple.2.2 ++
                 activePair.2 ++ dupPair.2 }
      | _ => Except.error "Invalid registry format"
    | _ => Except.error "Invalid registry format"
  | _ => Except.error "Invalid registry format"

/-- Upsert into a JS object used as a map: `repos[key] = value` keeps the
original position of an existing key and appends a fresh one. -/
def objUpsert (m : List (String × Option String)) (k : String) (v : Option String) :
    List (String × Option String) :=
  if m.any (fun p => p.1 = k) then
    m.map (fun p => if p.1 = k then (k, v) else p)
  else
    m ++ [(k, v)]

/-- One iteration of the `Object.entries(raw.repos)` loop of
`normalizeLocalState`: accumulate the per-entry record, or drop a
malformed one with a reported issue. -/
def localRepoStep (acc : List (String × Option String) × Bool × List String)
    (p : String × Jv) : List (String × Option String) × Bool × List String :=
  match p.2 with
  | Jv.obj vf =>
    let lsPair : Option String × Bool × List String :=
      match getF vf "lastSyncedAt" with
      | Jv.str s => (some s, false, [])
      | Jv.undef => (none, false, [])
      | _ => (none, true,
          ["local.json dropped invalid lastSyncedAt for \"" ++ p.1 ++ "\""])
    (objUpsert acc.1 p.1 lsPair.1, acc.2.1 || lsPair.2.1, acc.2.2 ++ lsPair.2.2)
  | _ => (acc.1, true,
      acc.2.2 ++ ["local.json dropped invalid repo state for \"" ++ p.1 ++ "\""])

/-- `normalizeLocalState` of schema.ts: validates the document shape and
drops malformed per-entry state with a reported issue. -/
def normalizeLocalState (raw : Jv) : Except String (NormResult LocalState) :=
  match raw with
  | Jv.obj fields => do
    let topIssues : List String :=
      (objKeys fields).filterMap (fun k =>
        if LOCAL_STATE_KEYS.contains k then none
        else some ("local.json dropped unknown field \"" ++ k ++ "\""))
    match getF fields "version" with
    | Jv.str _ =>
      match getF fields "repos" with
      | Jv.obj repoFields =>
        let reposTriple := repoFields.foldl localRepoStep ([], false, [])
        let lsrPair : Option String × Bool × List String :=
          match getF fields "lastSyncRun" with
          | Jv.str s => (some s, false, [])
          | Jv.undef => (none, false, [])
          | _ => (none, true, ["local.json dropped invalid lastSyncRun"])
        let changed : Bool := (!topIssues.isEmpty) || reposTriple.2.1 || lsrPair.2.1
        pure { data := { version := "1.0.0", lastSyncRun := lsrPair.1,
                         repos := reposTriple.1 },
               changed := changed,
               issues := topIssues ++ reposTriple.2.2 ++ lsrPair.2.2 }
      | _ => Except.error "Invalid local state format"
    | _ => Except.error "Invalid local state format"
  | _ => Except.error "Invalid local state format"

/-! ## Registry store operations (registry.ts) -/

/-- `createEmptyRegistry`. -/
def createEmptyRegistry : Registry :=
  { version := "1.0.0", repos := [], tombstones := [] }

/-- `findEntry`: first entry with the given id. -/
def findEntry (registry : Registry) (id : String) : Option RegistryEntry :=
  registry.repos.find? (fun e => e.id == id)

/-- `findEntryByOwnerRepo`. -/
def findEntryByOwnerRepo (registry : Registry) (owner repo : String) :
    Option RegistryEntry :=
  registry.repos.find? (fun e => e.owner == owner && e.repo == repo)

/-- `addEntry`: throws `Repository already exists in registry` on a
duplicate id, otherwise appends the entry. -/
def addEntry (registry : Registry) (entry : RegistryEntry) : Except String Registry :=
  if (findEntry registry entry.id).isSome then
    Except.error ("Repository already exists in registry: " ++ entry.id)
  else
    Except.ok { registry with repos := registry.repos ++ [entry] }

/-- A `Partial<RegistryEntry>`: each field optionally overridden.  The
optional metadata fields use a nested option (`some none` = the key is
present with value `undefined`, which the object spread does copy). -/
structure EntryPatch where
  id : Option String := none
  host : Option String := none
  owner : Option String := none
  repo : Option String := none
  cloneUrl : Option String := none
  description : Option (Option String) := none
  tags : Option (Option (List String)) := none
  defaultRemoteName : Option String := none
  updateStrategy : Option String := none
  submodules : Option String := none
  lfs : Option String := none
  managed : Option Bool := none
deriving DecidableEq, Repr

/-- The object spread `{ ...entry, ...updates }`. -/
def applyPatch (e : RegistryEntry) (p : EntryPatch) : RegistryEntry :=
  { id := p.id.getD e.id, host := p.host.getD e.host, owner := p.owner.getD e.owner,
    repo := p.repo.getD e.repo, cloneUrl := p.cloneUrl.getD e.cloneUrl,
    description := p.description.getD e.description, tags := p.tags.getD e.tags,
    defaultRemoteName := p.defaultRemoteName.getD e.defaultRemoteName,
    updateStrategy := p.updateStrategy.getD e.updateStrategy,
    submodules := p.submodules.getD e.submodules, lfs := p.lfs.getD e.lfs,
    managed := p.managed.getD e.managed }

/-- Replace the first entry with the given id (the `findIndex` + copy-set
of `updateEntry`); `none` when no entry matches. -/
def updateFirst (id : String) (p : EntryPatch) :
    List RegistryEntry → Option (List RegistryEntry)
  | [] => none
  | e :: rest =>
    if e.id = id then some (applyPatch e p :: rest)
    else (updateFirst id p rest).map (fun l => e :: l)

/-- `updateEntry`: throws `Repository not found in registry` when the id is
absent, otherwise merges the updates into the first matching entry. -/
def updateEntry (registry : Registry) (id : String) (p : EntryPatch) :
    Except String Registry :=
  match updateFirst id p registry.repos with
  | none => Except.error ("Repository not found in registry: " ++ id)
  | some repos => Except.ok { registry with repos := repos }

/-- `removeEntry`: filters the id out; throws `Repository not found in
registry` when nothing was removed. -/
def removeEntry (registry : Registry) (id : String) : Except String Registry :=
  let filtered := registry.repos.filter (fun e => e.id ≠ id)
  if filtered.length = registry.repos.length then
    Except.error ("Repository not found in registry: " ++ id)
  else
    Except.ok { registry with repos := filtered }

/-- `addTombstone`: no-op if already present. -/
def addTombstone (registry : Registry) (id : String) : Registry :=
  if registry.tombstones.contains id then
    registry
  else
    { registry with tombstones := registry.tombstones ++ [id] }

/-- `removeTombstone`: no-op if missing. -/
def removeTombstone (registry : Registry) (id : String) : Registry :=
  if ¬ registry.tombstones.contains id then
    registry
  else
    { registry with tombstones := registry.tombstones.filter (fun x => x ≠ id) }

/-- `String.prototype.split` with a single-character separator, as used by
`filterByPattern` (`pattern.split("/")`). -/
def jsSplit (c : Char) : List Char → List (List Char)
  | [] => [[]]
  | x :: rest =>
    if x = c then [] :: jsSplit c rest
    else
      match jsSplit c rest with
      | [] => [[x]]
      | seg :: segs => (x :: seg) :: segs

/-- `filterByPattern` of registry.ts: destructures the first two
'/'-separated parts of the pattern; `*` matches any owner, and a missing or
falsy (empty) repo part matches any repo. -/
def filterByPattern (registry : Registry) (pattern : String) : List RegistryEntry :=
  let parts := jsSplit '/' pattern.toList
  let ownerPattern := parts.headD []
  let repoPattern := parts.get? 1
  registry.repos.filter (fun entry =>
    let ownerMatch : Bool := ownerPattern = ['*'] || entry.owner.toList = ownerPattern
    let repoMatch : Bool :=
      match repoPattern with
      | none => true
      | some rp => rp = [] || rp = ['*'] || entry.repo.toList = rp
    ownerMatch && repoMatch)

/-! ## Identity resolver (url-parser.ts) -/

/-- The canonical tuple produced by `parseGitUrl`. -/
structure ParsedGitUrl where
  host : String
  owner : String
  repo : String
  cloneUrl : String
deriving DecidableEq, Repr

/-- The web-UI path words stripped by `normalizeGitUrl`. -/
def UI_WORDS : List (List Char) :=
  ["tree", "blob", "commit", "pull", "issues", "releases", "tags", "actions",
   "wiki", "discussions", "security", "pulse", "graphs", "network",
   "settings"].map String.toList

/-- Does the regex `\/(tree|blob|...)(\/.*)?$` match at the head of `l`
(with the match required to extend to the end of the string)? -/
def uiMatchAt (l : List Char) : Bool :=
  match l with
  | '/' :: r =>
    UI_WORDS.any (fun w =>
      w.isPrefixOf r &&
        (match r.drop w.length with
         | [] => true
         | '/' :: _ => true
         | _ => false))
  | _ => false

/-- `normalizeGitUrl`: replace the first (leftmost) match of the web-UI
path regex — which always extends to the end of the string — with `""`. -/
def stripUi : List Char → List Char
  | [] => []
  | c :: rest => if uiMatchAt (c :: rest) then [] else c :: stripUi rest

/-- JS whitespace trimmed by `String.prototype.trim`. -/
def isJsWs (c : Char) : Bool :=
  c = ' ' || c = '\t' || c = '\n' || c = '\r'

/-- `url.trim()`. -/
def jsTrim (l : List Char) : List Char :=
  ((l.dropWhile isJsWs).reverse.dropWhile isJsWs).reverse

/-- The repo group `(.+?)(?:\.git)?$`: non-greedy, so one trailing `.git`
is stripped whenever at least one character remains before it. -/
def repoGroup (r : List Char) : Option (List Char) :=
  if r = [] then none
  else if (".git".toList).isSuffixOf r ∧ r.length ≥ 5 then some (r.take (r.length - 4))
  else some r

/-- The SSH regex `^git@([^:]+):([^/]+)\/(.+?)(?:\.git)?$`. -/
def sshMatch (l : List Char) : Option (List Char × List Char × List Char) :=
  match l with
  | c1 :: c2 :: c3 :: c4 :: rest =>
    if c1 = 'g' ∧ c2 = 'i' ∧ c3 = 't' ∧ c4 = '@' then
      let host := rest.takeWhile (fun c => c ≠ ':')
      match rest.drop host.length with
      | c :: r2 =>
        if c = ':' then
          if host = [] then none
          else
            let owner := r2.takeWhile (fun c => c ≠ '/')
            match r2.drop owner.length with
            | d :: r4 =>
              if d = '/' then
                if owner = [] then none
                else (repoGroup r4).map (fun repo => (host, owner, repo))
              else none
            | [] => none
        else none
      | [] => none
    else none
  | _ => none

/-- The HTTPS regex `^https?:\/\/([^/]+)\/([^/]+)\/(.+?)(?:\.git)?$`,
applied to the characters following the `https?://` scheme. -/
def httpsMatchTail (rest : List Char) : Option (List Char × List Char × List Char) :=
  let host := rest.takeWhile (fun c => c ≠ '/')
  match rest.drop host.length with
  | c :: r2 =>
    if c = '/' then
      if host = [] then none
      else
        let owner := r2.takeWhile (fun c => c ≠ '/')
        match r2.drop owner.length with
        | d :: r4 =>
          if d = '/' then
            if owner = [] then none
            else (repoGroup r4).map (fun repo => (host, owner, repo))
          else none
        | [] => none
    else none
  | [] => none

/-- The scheme part `https?:\/\/`: after the literal `http`, an optional
`s`, then `://`; deterministic because `s` and `:` differ. -/
def schemeTail (rest : List Char) : Option (List Char) :=
  match rest with
  | c :: rest2 =>
    if c = 's' then
      match rest2 with
      | d :: e :: f :: rest3 =>
        if d = ':' ∧ e = '/' ∧ f = '/' then some rest3 else none
      | _ => none
    else
      if c = ':' then
        match rest2 with
        | e :: f :: rest3 =>
          if e = '/' ∧ f = '/' then some rest3 else none
        | _ => none
      else none
  | [] => none

def httpsMatch (l : List Char) : Option (List Char × List Char × List Char) :=
  match l with
  | c1 :: c2 :: c3 :: c4 :: rest =>
    if c1 = 'h' ∧ c2 = 't' ∧ c3 = 't' ∧ c4 = 'p' then
      match schemeTail rest with
      | some rest2 => httpsMatchTail rest2
      | none => none
    else none
  | _ => none

/-- `url.endsWith(".git") ? url : url + ".git"`. -/
def ensureGitSuffix (u : List Char) : List Char :=
  if (".git".toList).isSuffixOf u then u else u ++ ".git".toList

/-- `parseGitUrl` of url-parser.ts: trim, strip web-UI paths, then try the
SSH regex and the HTTPS regex; throws `Invalid Git URL format` otherwise. -/
def parseGitUrl (url : String) : Except String ParsedGitUrl :=
  let u := stripUi (jsTrim url.toList)
  match sshMatch u with
  | some (h, o, r) =>
    Except.ok { host := String.mk h, owner := String.mk o, repo := String.mk r,
                cloneUrl := String.mk (ensureGitSuffix u) }
  | none =>
    match httpsMatch u with
    | some (h, o, r) =>
      Except.ok { host := String.mk h, owner := String.mk o, repo := String.mk r,
                  cloneUrl := String.mk (ensureGitSuffix u) }
    | none =>
      Except.error ("Invalid Git URL format: " ++ String.mk u ++ "\n" ++
        "Expected SSH (git@host:owner/repo.git) or HTTPS (https://host/owner/repo.git)")

/-- `generateRepoId`: `host:owner/repo`. -/
def generateRepoId (parsed : ParsedGitUrl) : String :=
  parsed.host ++ ":" ++ parsed.owner ++ "/" ++ parsed.repo

/-! ## Version-control adapter status (git.ts) -/

/-- The transient `RepoStatus` record computed each run. -/
structure RepoStatus where
  exists' : Bool
  isGitRepo : Bool
  currentBranch : Option String
  isDetached : Bool
  tracking : Option String
  ahead : Int
  behind : Int
  isDirty : Bool
deriving DecidableEq, Repr

/-- The `StatusResult` fields of the underlying git status call. -/
structure GitStatusRaw where
  current : Option String
  detached : Bool
  tracking : Option String
  ahead : Int
  behind : Int
  files : List String
deriving DecidableEq, Repr

/-- What the filesystem and git report for one path: whether the path
exists, whether `path/.git` exists, and the outcome of `git status`
(`Except.error` models a thrown exception from a corrupted repo). -/
structure FsView where
  pathExists : Bool
  dotGitExists : Bool
  statusCall : Except String GitStatusRaw
deriving Repr

/-- `getRepoStatus` of git.ts: total over every `FsView`. -/
def getRepoStatus (v : FsView) : RepoStatus :=
  if ¬ v.pathExists then
    { exists' := false, isGitRepo := false, currentBranch := none, isDetached := false,
      tracking := none, ahead := 0, behind := 0, isDirty := false }
  else if ¬ v.dotGitExists then
    { exists' := true, isGitRepo := false, currentBranch := none, isDetached := false,
      tracking := none, ahead := 0, behind := 0, isDirty := false }
  else
    match v.statusCall with
    | Except.error _ =>
      { exists' := true, isGitRepo := false, currentBranch := none, isDetached := false,
        tracking := none, ahead := 0, behind := 0, isDirty := false }
    | Except.ok s =>
      { exists' := true, isGitRepo := true, currentBranch := s.current,
        isDetached := s.detached, tracking := s.tracking, ahead := s.ahead,
        behind := s.behind, isDirty := decide (s.files.length > 0) }

/-! ## Sync orchestrator (sync.ts)

External behavior — the filesystem view per path, git subprocess results,
scanner output and the GitHub API — is supplied by a `SyncOracle`.
Mutating calls are logged as `Effect`s; read-only calls are not effects. -/

/-- A mutating external call issued by the orchestrator. -/
inductive Effect where
  | cloneE (url path : String)
  | rmE (dir : String)
  | fetchE (path : String)
  | resetE (path : String)
  | pullE (path : String)
  | submoduleE (path : String)
  | lfsPullE (path : String)
  | writeRegistryE
  | writeLocalStateE
deriving DecidableEq, Repr

/-- A repo found on disk by the scanner. -/
structure DiscoveredRepo where
  owner : String
  repo : String
  localPath : String
deriving DecidableEq, Repr

/-- Metadata returned by the GitHub API. -/
structure GithubMetadata where
  description : Option String
  topics : List String
deriving DecidableEq, Repr

/-- The external world as consulted by one sync run. -/
structure SyncOracle where
  discovered : List DiscoveredRepo
  isNested : String → Bool
  remoteUrl : String → Option String
  fs : String → FsView
  cloneResult : String → String → Except String Unit
  cloneDiskEffect : String → String → List String → List String
  fetchResult : String → Except String Unit
  resetResult : String → Except String Int
  pullResult : String → Except String Int
  usesLfs : String → Bool
  github : String → String → Option GithubMetadata
  now : String

/-- `getRepoPath(owner, repo)` relative to the content root. -/
def repoPath (entry : RegistryEntry) : String :=
  entry.owner ++ "/" ++ entry.repo

/-- The status the orchestrator sees for a path (`getRepoStatus`). -/
def statusOf (o : SyncOracle) (path : String) : RepoStatus :=
  getRepoStatus (o.fs path)

/-- JS falsiness of a nullable string (`!status.tracking`). -/
def jsFalsyStr : Option String → Bool
  | none => true
  | some s => s == ""

/-- Result type of `updateRepo`. -/
inductive UpdateResult where
  | updated (commits : Int)
  | skipped (reason : String)
  | error (msg : String)
deriving DecidableEq, Repr

/-- `updateRepo` of sync.ts: classify by the first matching rule, then
fetch + reset/pull, then best-effort submodules and LFS.  Returns the
per-entry result and the mutating calls issued. -/
def updateRepo (o : SyncOracle) (entry : RegistryEntry) (dryRun force : Bool) :
    UpdateResult × List Effect :=
  let localPath := repoPath entry
  let status := statusOf o localPath
  if ¬ status.exists' then (UpdateResult.skipped "directory missing", [])
  else if ¬ status.isGitRepo then (UpdateResult.skipped "not a git repo", [])
  else if status.isDetached then (UpdateResult.skipped "detached HEAD", [])
  else if jsFalsyStr status.tracking then (UpdateResult.skipped "no upstream tracking", [])
  else if status.isDirty ∧ ¬ force then (UpdateResult.skipped "dirty working tree", [])
  else if dryRun then (UpdateResult.updated 0, [])
  else
    match o.fetchResult localPath with
    | Except.error msg => (UpdateResult.error msg, [Effect.fetchE localPath])
    | Except.ok _ =>
      let strat : Except String Int × List Effect :=
        if entry.updateStrategy = "hard-reset" then
          (o.resetResult localPath, [Effect.fetchE localPath, Effect.resetE localPath])
        else
          (o.pullResult localPath, [Effect.fetchE localPath, Effect.pullE localPath])
      match strat.1 with
      | Except.error msg => (UpdateResult.error msg, strat.2)
      | Except.ok commits =>
        let effs1 := strat.2 ++
          (if entry.submodules = "recursive" then [Effect.submoduleE localPath] else [])
        let effs2 := effs1 ++
          (if entry.lfs = "always" || (entry.lfs = "auto" && o.usesLfs localPath) then
            [Effect.lfsPullE localPath] else [])
        (UpdateResult.updated commits, effs2)

/-! ### Phase 2 — clone -/

/-- `rm(dir, {recursive: true, force: true})` on the disk model: removes
the directory and everything beneath it. -/
def removeUnder (dir : String) (disk : List String) : List String :=
  disk.filter (fun p => ¬ (p = dir ∨ (dir ++ "/").isPrefixOf p))

/-- Accumulated state of the clone phase. -/
structure CloneState where
  disk : List String
  cloned : List (String × String)
  errors : List (String × String)
  effects : List Effect
deriving Repr

/-- One iteration of the clone loop: skip unmanaged or already-present
entries, report in dry-run, clone otherwise, rolling back a newly created
owner directory when the clone fails. -/
def cloneStep (o : SyncOracle) (dryRun : Bool) (st : CloneState)
    (entry : RegistryEntry) : CloneState :=
  if ¬ entry.managed then st
  else
    let localPath := repoPath entry
    let status := statusOf o localPath
    if status.exists' && status.isGitRepo then st
    else if dryRun then { st with cloned := st.cloned ++ [(entry.owner, entry.repo)] }
    else
      let ownerDir := entry.owner
      let ownerExistedBefore := st.disk.contains ownerDir
      let disk1 := o.cloneDiskEffect entry.cloneUrl localPath st.disk
      match o.cloneResult entry.cloneUrl localPath with
      | Except.ok _ =>
        { disk := disk1, cloned := st.cloned ++ [(entry.owner, entry.repo)],
          errors := st.errors,
          effects := st.effects ++ [Effect.cloneE entry.cloneUrl localPath] }
      | Except.error msg =>
        let rollback := (¬ ownerExistedBefore) && disk1.contains ownerDir
        { disk := if rollback then removeUnder ownerDir disk1 else disk1,
          cloned := st.cloned,
          errors := st.errors ++ [(entry.owner ++ "/" ++ entry.repo, msg)],
          effects := st.effects ++ [Effect.cloneE entry.cloneUrl localPath] ++
            (if rollback then [Effect.rmE ownerDir] else []) }

/-- `clonePhase` of sync.ts as a left fold over the registry entries. -/
def clonePhase (o : SyncOracle) (registry : Registry) (dryRun : Bool)
    (disk : List String) : CloneState :=
  registry.repos.foldl (cloneStep o dryRun)
    { disk := disk, cloned := [], errors := [], effects := [] }

/-! ### Phase 1 — adopt -/

structure AdoptState where
  adopted : List (String × String)
  registry : Registry
deriving Repr

/-- One iteration of the adopt loop.  The owner/repo membership test uses
the registry as of the start of the phase (`registry.repos.find` in the
source); the id test uses the accumulated registry. -/
def adoptStep (o : SyncOracle) (orig : Registry) (dryRun : Bool) (st : AdoptState)
    (d : DiscoveredRepo) : Except String AdoptState :=
  if (orig.repos.find? (fun e => e.owner == d.owner && e.repo == d.repo)).isSome then
    Except.ok st
  else if o.isNested d.localPath then Except.ok st
  else
    match o.remoteUrl d.localPath with
    | none => Except.ok st
    | some url =>
      match parseGitUrl url with
      | Except.error _ => Except.ok st
      | Except.ok parsed =>
        let repoId := generateRepoId parsed
        if (findEntry st.registry repoId).isSome then Except.ok st
        else if dryRun then
          Except.ok { st with adopted := st.adopted ++ [(d.owner, d.repo)] }
        else
          let meta :=
            if parsed.host = "github.com" then o.github parsed.owner parsed.repo
            else none
          let description : Option String :=
            match meta with
            | some m => match m.description with
              | some s => if s = "" then none else some s
              | none => none
            | none => none
          let tags : Option (List String) :=
            match meta with
            | some m => if m.topics.length > 0 then some m.topics else none
            | none => none
          let entry : RegistryEntry :=
            { id := repoId, host := parsed.host, owner := parsed.owner,
              repo := parsed.repo, cloneUrl := parsed.cloneUrl,
              description := description, tags := tags,
              defaultRemoteName := DEFAULTS_defaultRemoteName,
              updateStrategy := DEFAULTS_updateStrategy,
              submodules := DEFAULTS_submodules, lfs := DEFAULTS_lfs,
              managed := true }
          (addEntry st.registry entry).map (fun r =>
            { adopted := st.adopted ++ [(d.owner, d.repo)], registry := r })

def adoptGo (o : SyncOracle) (orig : Registry) (dryRun : Bool) :
    List DiscoveredRepo → AdoptState → Except String AdoptState
  | [], st => Except.ok st
  | d :: rest, st => do
    let st2 ← adoptStep o orig dryRun st d
    adoptGo o orig dryRun rest st2

/-- `adoptPhase` of sync.ts. -/
def adoptPhase (o : SyncOracle) (registry : Registry) (dryRun : Bool) :
    Except String AdoptState :=
  adoptGo o registry dryRun o.discovered { adopted := [], registry := registry }

/-! ### Phase 3 — update, and the full run -/

/-- Modelled from the spec: the local-state store module is not present in
the source tree; §4.3 specifies `updateRepoLocalState(id, updates)` as
merging into the existing per-entry record or creating it. -/
def updateRepoLocalState (ls : LocalState) (id : String)
    (lastSyncedAt : Option String) : LocalState :=
  { ls with repos := objUpsert ls.repos id lastSyncedAt }

/-- Modelled from the spec: the local-state store module is not present in
the source tree; §4.3 specifies `updateLastSyncRun()` as stamping the
current time. -/
def updateLastSyncRun (ls : LocalState) (now : String) : LocalState :=
  { ls with lastSyncRun := some now }

inductive SummaryAction where
  | adopted | cloned | updated | skipped | refreshed | error
deriving DecidableEq, Repr

/-- One per-entry summary record. -/
structure Summary where
  name : String
  action : SummaryAction
  detail : Option String
deriving DecidableEq, Repr

/-- One iteration of the update loop of `run`: call `updateRepo`, record a
summary, and stamp the local state on success when not in dry-run. -/
def updateStep (o : SyncOracle) (dryRun force : Bool)
    (st : LocalState × List Summary × List Effect) (entry : RegistryEntry) :
    LocalState × List Summary × List Effect :=
  let r := updateRepo o entry dryRun force
  let name := entry.owner ++ "/" ++ entry.repo
  match r.1 with
  | UpdateResult.updated commits =>
    let ls := if ¬ dryRun then updateRepoLocalState st.1 entry.id (some o.now) else st.1
    (ls,
     st.2.1 ++ [{ name := name, action := SummaryAction.updated,
                  detail := if commits ≠ 0 then some (toString commits ++ " commits")
                            else none }],
     st.2.2 ++ r.2)
  | UpdateResult.skipped reason =>
    (st.1, st.2.1 ++ [{ name := name, action := SummaryAction.skipped,
                        detail := some reason }], st.2.2 ++ r.2)
  | UpdateResult.error msg =>
    (st.1, st.2.1 ++ [{ name := name, action := SummaryAction.error,
                        detail := some msg }], st.2.2 ++ r.2)

/-- One iteration of the optional metadata refresh loop (phase 4). -/
def refreshStep (o : SyncOracle) (dryRun : Bool)
    (st : Registry × List Summary) (entry : RegistryEntry) :
    Except String (Registry × List Summary) :=
  let name := entry.owner ++ "/" ++ entry.repo
  if dryRun then
    Except.ok (st.1, st.2 ++ [{ name := name, action := SummaryAction.refreshed,
                                detail := none }])
  else
    match o.github entry.owner entry.repo with
    | none => Except.ok st
    | some m =>
      let newDescription : Option String :=
        match m.description with
        | some s => if s = "" then none else some s
        | none => none
      let newTags : Option (List String) :=
        if m.topics.length > 0 then some m.topics else none
      let descChanged := entry.description ≠ newDescription
      let tagsChanged := entry.tags ≠ newTags
      if descChanged ∨ tagsChanged then
        (updateEntry st.1 entry.id
            { description := some newDescription, tags := some newTags }).map
          (fun r => (r, st.2 ++ [{ name := name, action := SummaryAction.refreshed,
                                   detail := none }]))
      else
        Except.ok st

def refreshGo (o : SyncOracle) (dryRun : Bool) :
    List RegistryEntry → Registry × List Summary → Except String (Registry × List Summary)
  | [], st => Except.ok st
  | e :: rest, st => do
    let st2 ← refreshStep o dryRun st e
    refreshGo o dryRun rest st2

/-- Per-run modes of `sync`. -/
structure SyncArgs where
  filter : Option String
  dryRun : Bool
  force : Bool
  refresh : Bool
deriving Repr

/-- Everything a sync run produces: the in-memory documents, the disk
model, the mutating calls issued (in order), and the summaries. -/
structure RunOut where
  registry : Registry
  localState : LocalState
  disk : List String
  effects : List Effect
  summaries : List Summary
deriving Repr

/-- The `run` entry point of sync.ts: adopt, clone, update, optional
refresh, then persistence (skipped entirely in dry-run). -/
def runSync (o : SyncOracle) (args : SyncArgs) (registry0 : Registry)
    (localState0 : LocalState) (disk0 : List String) : Except String RunOut := do
  let stA ← adoptPhase o registry0 args.dryRun
  let summaries1 := stA.adopted.map (fun p =>
    { name := p.1 ++ "/" ++ p.2, action := SummaryAction.adopted,
      detail := none : Summary })
  let cs := clonePhase o stA.registry args.dryRun disk0
  let summaries2 := summaries1 ++
    cs.cloned.map (fun p =>
      { name := p.1 ++ "/" ++ p.2, action := SummaryAction.cloned,
        detail := none : Summary }) ++
    cs.errors.map (fun p =>
      { name := p.1, action := SummaryAction.error, detail := some p.2 : Summary })
  let reposToUpdate0 := stA.registry.repos.filter (fun r => r.managed)
  let reposToUpdate :=
    match args.filter with
    | none => reposToUpdate0
    | some pat =>
      if pat = "" then reposToUpdate0
      else filterByPattern { stA.registry with repos := reposToUpdate0 } pat
  let upd := reposToUpdate.foldl (updateStep o args.dryRun args.force)
    (localState0, [], [])
  let summaries3 := summaries2 ++ upd.2.1
  let refreshed ←
    if args.refresh then
      refreshGo o args.dryRun (stA.registry.repos.filter (fun r => r.host == "github.com"))
        (stA.registry, [])
    else
      pure (stA.registry, ([] : List Summary))
  let summaries4 := summaries3 ++ refreshed.2
  if ¬ args.dryRun then
    pure { registry := refreshed.1,
           localState := updateLastSyncRun upd.1 o.now,
           disk := cs.disk,
           effects := cs.effects ++ upd.2.2 ++
             [Effect.writeRegistryE, Effect.writeLocalStateE],
           summaries := summaries4 }
  else
    pure { registry := refreshed.1, localState := upd.1, disk := cs.disk,
           effects := cs.effects ++ upd.2.2, summaries := summaries4 }

/-! ## Claim theorems -/

/-- The `RepoStatus` shape returned for a missing path. -/
def missingStatus : RepoStatus :=
  { exists' := false, isGitRepo := false, currentBranch := none, isDetached := false,
    tracking := none, ahead := 0, behind := 0, isDirty := false }

/-- The `RepoStatus` shape returned for a present non-repository path
(also used for a corrupted repository). -/
def notRepoStatus : RepoStatus :=
  { exists' := true, isGitRepo := false, currentBranch := none, isDetached := false,
    tracking := none, ahead := 0, behind := 0, isDirty := false }

/-- C9: `getRepoStatus` is total — it returns a `RepoStatus` for every
filesystem view and never throws: a missing path yields `exists:false`, a
present non-repository path yields `exists:true, isGitRepo:false`, and a
repository whose `git status` call throws is caught internally and yields
the same `exists:true, isGitRepo:false` shape. -/
theorem getRepoStatus_total (v : FsView) :
    (v.pathExists = false → getRepoStatus v = missingStatus) ∧
    (v.pathExists = true → v.dotGitExists = false → getRepoStatus v = notRepoStatus) ∧
    (∀ e, v.pathExists = true → v.dotGitExists = true →
      v.statusCall = Except.error e → getRepoStatus v = notRepoStatus) ∧
    (∀ s, v.pathExists = true → v.dotGitExists = true →
      v.statusCall = Except.ok s →
      getRepoStatus v =
        { exists' := true, isGitRepo := true, currentBranch := s.current,
          isDetached := s.detached, tracking := s.tracking, ahead := s.ahead,
          behind := s.behind, isDirty := decide (s.files.length > 0) }) := by
  obtain ⟨pe, dg, sc⟩ := v
  refine ⟨?_, ?_, ?_, ?_⟩
  · intro h; subst h; simp [getRepoStatus, missingStatus]
  · intro h1 h2; subst h1; subst h2; simp [getRepoStatus, notRepoStatus]
  · intro e h1 h2 h3; subst h1; subst h2; subst h3
    simp [getRepoStatus, notRepoStatus]
  · intro s h1 h2 h3; subst h1; subst h2; subst h3
    simp [getRepoStatus]

/-- Witness for C9 at a concrete corrupted-repository view. -/
theorem getRepoStatus_total_witness :
    getRepoStatus { pathExists := true, dotGitExists := true,
                    statusCall := Except.error "corrupt" } = notRepoStatus :=
  (getRepoStatus_total _).2.2.1 "corrupt" rfl rfl rfl

lemma updateFirst_eq_none_iff (id : String) (p : EntryPatch) :
    ∀ l : List RegistryEntry, updateFirst id p l = none ↔ ∀ x ∈ l, x.id ≠ id
  | [] => by simp [updateFirst]
  | e :: rest => by
    by_cases h : e.id = id
    · simp [updateFirst, h]
    · simp only [updateFirst, if_neg h, Option.map_eq_none',
        updateFirst_eq_none_iff id p rest, List.mem_cons]
      constructor
      · rintro hall x (rfl | hx)
        · exact h
        · exact hall x hx
      · intro hall x hx
        exact hall x (Or.inr hx)

lemma filter_id_length_eq_iff (id : String) (l : List RegistryEntry) :
    (l.filter (fun e => e.id ≠ id)).length = l.length ↔ ∀ x ∈ l, x.id ≠ id := by
  constructor
  · intro h x hx
    have h2 := (List.filter_length_eq_length
      (l := l) (p := fun e => decide (e.id ≠ id))).1 h x hx
    simpa using h2
  · intro h
    exact (List.filter_length_eq_length).2 (fun a ha => by simpa using h a ha)

lemma findEntry_isSome_iff (r : Registry) (id : String) :
    (findEntry r id).isSome ↔ ∃ x ∈ r.repos, x.id = id := by
  unfold findEntry
  rw [List.find?_isSome]
  simp

/-- C8: `addEntry` fails with the duplicate-id error exactly when an entry
with the same id exists; `updateEntry` and `removeEntry` fail with the
not-found error exactly when no entry with the id exists; `addTombstone`
and `removeTombstone` return the registry unchanged when it is already in
the desired state.  (All store operations are value-level: an error result
produces no registry at all, so the input registry value is never
modified.) -/
theorem storeMutation_contract (r : Registry) (e : RegistryEntry) (id : String)
    (p : EntryPatch) :
    (addEntry r e = Except.error ("Repository already exists in registry: " ++ e.id)
      ↔ ∃ x ∈ r.repos, x.id = e.id) ∧
    (updateEntry r id p = Except.error ("Repository not found in registry: " ++ id)
      ↔ ∀ x ∈ r.repos, x.id ≠ id) ∧
    (removeEntry r id = Except.error ("Repository not found in registry: " ++ id)
      ↔ ∀ x ∈ r.repos, x.id ≠ id) ∧
    (id ∈ r.tombstones → addTombstone r id = r) ∧
    (id ∉ r.tombstones → removeTombstone r id = r) := by
  refine ⟨?_, ?_, ?_, ?_, ?_⟩
  · rw [← findEntry_isSome_iff]
    unfold addEntry
    by_cases h : (findEntry r e.id).isSome
    · simp [h]
    · simp [h]
  · rw [← updateFirst_eq_none_iff id p r.repos]
    unfold updateEntry
    cases h : updateFirst id p r.repos <;> simp [h]
  · rw [← filter_id_length_eq_iff id r.repos]
    unfold removeEntry
    by_cases h : (r.repos.filter (fun x => x.id ≠ id)).length = r.repos.length
    · simp [h]
    · simp [h]
  · intro h
    unfold addTombstone
    simp [h]
  · intro h
    unfold removeTombstone
    simp [h]

/-- Witness for C8 at concrete registries already in the desired state. -/
theorem storeMutation_contract_witness :
    addTombstone { version := "1.0.0", repos := [], tombstones := ["a"] } "a" =
      { version := "1.0.0", repos := [], tombstones := ["a"] } ∧
    removeTombstone { version := "1.0.0", repos := [], tombstones := [] } "a" =
      { version := "1.0.0", repos := [], tombstones := [] } := by
  have h := storeMutation_contract
    { version := "1.0.0", repos := [], tombstones := ["a"] }
    { id := "x", host := "h", owner := "o", repo := "r", cloneUrl := "c",
      description := none, tags := none, defaultRemoteName := "origin",
      updateStrategy := "hard-reset", submodules := "none", lfs := "auto",
      managed := true } "a" {}
  have h2 := storeMutation_contract
    { version := "1.0.0", repos := [], tombstones := [] }
    { id := "x", host := "h", owner := "o", repo := "r", cloneUrl := "c",
      description := none, tags := none, defaultRemoteName := "origin",
      updateStrategy := "hard-reset", submodules := "none", lfs := "auto",
      managed := true } "a" {}
  exact ⟨h.2.2.2.1 (by decide), h2.2.2.2.2 (by decide)⟩

/-- In the non-dry-run operative branch, `updateRepo` never returns a
skip: it either updates or reports a per-entry error. -/
lemma updateRepo_operative_not_skipped (o : SyncOracle) (entry : RegistryEntry)
    (force : Bool)
    (h1 : (statusOf o (repoPath entry)).exists' = true)
    (h2 : (statusOf o (repoPath entry)).isGitRepo = true)
    (h3 : (statusOf o (repoPath entry)).isDetached = false)
    (h4 : jsFalsyStr (statusOf o (repoPath entry)).tracking = false)
    (h5 : ¬ ((statusOf o (repoPath entry)).isDirty = true ∧ force = false)) :
    ∀ reason, (updateRepo o entry false force).1 ≠ UpdateResult.skipped reason := by
  intro reason
  unfold updateRepo
  simp only [h1, h2, h3, h4]
  rw [if_neg (by simp), if_neg (by simp), if_neg (by simp), if_neg (by simp),
    if_neg (by rintro ⟨hd, hf⟩; exact h5 ⟨hd, by simpa using hf⟩), if_neg (by simp)]
  rcases hf : o.fetchResult (repoPath entry) with m | u
  · simp
  · simp only []
    by_cases hs : entry.updateStrategy = "hard-reset"
    · simp only [if_pos hs]
      rcases hr : o.resetResult (repoPath entry) with m | c <;> simp
    · simp only [if_neg hs]
      rcases hr : o.pullResult (repoPath entry) with m | c <;> simp

/-- A status computed by `getRepoStatus` can only be detached when the
path exists and is a git repository. -/
lemma statusOf_shape (o : SyncOracle) (p : String) :
    (statusOf o p).isDetached = true →
      (statusOf o p).exists' = true ∧ (statusOf o p).isGitRepo = true := by
  unfold statusOf getRepoStatus
  rcases o.fs p with ⟨pe, dg, sc⟩
  rcases pe <;> rcases dg <;> try simp
  rcases sc <;> simp

/-- C1: `updateRepo` classifies by the first matching rule of the fixed
order — missing directory, not a repository, detached, no upstream,
dirty-without-force, update — so a repository that is simultaneously
detached and dirty is always skipped with the detached reason and never
with the dirty reason. -/
theorem updateRepo_skip_priority (o : SyncOracle) (entry : RegistryEntry)
    (dryRun force : Bool) :
    (((updateRepo o entry dryRun force).1 = UpdateResult.skipped "directory missing") ↔
      (statusOf o (repoPath entry)).exists' = false) ∧
    (((updateRepo o entry dryRun force).1 = UpdateResult.skipped "not a git repo") ↔
      ((statusOf o (repoPath entry)).exists' = true ∧
       (statusOf o (repoPath entry)).isGitRepo = false)) ∧
    (((updateRepo o entry dryRun force).1 = UpdateResult.skipped "detached HEAD") ↔
      ((statusOf o (repoPath entry)).exists' = true ∧
       (statusOf o (repoPath entry)).isGitRepo = true ∧
       (statusOf o (repoPath entry)).isDetached = true)) ∧
    (((updateRepo o entry dryRun force).1 = UpdateResult.skipped "no upstream tracking") ↔
      ((statusOf o (repoPath entry)).exists' = true ∧
       (statusOf o (repoPath entry)).isGitRepo = true ∧
       (statusOf o (repoPath entry)).isDetached = false ∧
       jsFalsyStr (statusOf o (repoPath entry)).tracking = true)) ∧
    (((updateRepo o entry dryRun force).1 = UpdateResult.skipped "dirty working tree") ↔
      ((statusOf o (repoPath entry)).exists' = true ∧
       (statusOf o (repoPath entry)).isGitRepo = true ∧
       (statusOf o (repoPath entry)).isDetached = false ∧
       jsFalsyStr (statusOf o (repoPath entry)).tracking = false ∧
       (statusOf o (repoPath entry)).isDirty = true ∧ force = false)) ∧
    ((statusOf o (repoPath entry)).isDetached = true →
      (statusOf o (repoPath entry)).isDirty = true →
      (updateRepo o entry dryRun force).1 = UpdateResult.skipped "detached HEAD") := by
  rcases he : (statusOf o (repoPath entry)).exists' with _ | _
  · have hres : (updateRepo o entry dryRun force).1 =
        UpdateResult.skipped "directory missing" := by
      unfold updateRepo
      simp [he]
    have hdet : (statusOf o (repoPath entry)).isDetached = false := by
      rcases hd : (statusOf o (repoPath entry)).isDetached with _ | _
      · rfl
      · exact absurd (statusOf_shape o (repoPath entry) hd).1 (by simp [he])
    refine ⟨by simp [hres, he], by simp [hres, he], by simp [hres, he],
      by simp [hres, he], by simp [hres, he], ?_⟩
    intro hd
    exact absurd hd (by simp [hdet])
  · rcases hg : (statusOf o (repoPath entry)).isGitRepo with _ | _
    · have hres : (updateRepo o entry dryRun force).1 =
          UpdateResult.skipped "not a git repo" := by
        unfold updateRepo
        simp [he, hg]
      have hdet : (statusOf o (repoPath entry)).isDetached = false := by
        rcases hd : (statusOf o (repoPath entry)).isDetached with _ | _
        · rfl
        · exact absurd (statusOf_shape o (repoPath entry) hd).2 (by simp [hg])
      refine ⟨by simp [hres, he], by simp [hres, he, hg], by simp [hres, hg],
        by simp [hres, hg], by simp [hres, hg], ?_⟩
      intro hd
      exact absurd hd (by simp [hdet])
    · rcases hd : (statusOf o (repoPath entry)).isDetached with _ | _
      · rcases ht : jsFalsyStr (statusOf o (repoPath entry)).tracking with _ | _
        · by_cases hdirty : (statusOf o (repoPath entry)).isDirty = true ∧ force = false
          · have hres : (updateRepo o entry dryRun force).1 =
                UpdateResult.skipped "dirty working tree" := by
              unfold updateRepo
              simp only [he, hg, hd, ht]
              rw [if_neg (by simp), if_neg (by simp), if_neg (by simp),
                if_neg (by simp),
                if_pos ⟨hdirty.1, by simp [hdirty.2]⟩]
            refine ⟨by simp [hres], by simp [hres, hg], by simp [hres, hd],
              by simp [hres, ht],
              ⟨fun _ => ⟨rfl, rfl, rfl, rfl, hdirty.1, hdirty.2⟩, fun _ => hres⟩,
              by simp [hd]⟩
          · have hns : ∀ reason, (updateRepo o entry dryRun force).1 ≠
                UpdateResult.skipped reason := by
              rcases hdry : dryRun with _ | _
              · intro reason
                exact updateRepo_operative_not_skipped o entry force he hg hd ht
                  hdirty reason
              · intro reason
                unfold updateRepo
                simp only [he, hg, hd, ht]
                rw [if_neg (by simp), if_neg (by simp), if_neg (by simp),
                  if_neg (by simp),
                  if_neg (fun hc => hdirty ⟨hc.1, by simpa using hc.2⟩),
                  if_pos (by trivial)]
                simp
            refine ⟨by simp [hns], by simp [hns, hg], by simp [hns, hd],
              by simp [hns, ht], ?_, by simp [hd]⟩
            constructor
            · intro hcontra
              exact absurd hcontra (hns _)
            · rintro ⟨-, -, -, -, h5, h6⟩
              exact absurd ⟨h5, h6⟩ hdirty
        · have hres : (updateRepo o entry dryRun force).1 =
              UpdateResult.skipped "no upstream tracking" := by
            unfold updateRepo
            simp only [he, hg, hd, ht]
            rw [if_neg (by simp), if_neg (by simp), if_neg (by simp),
              if_pos (by trivial)]
          refine ⟨by simp [hres], by simp [hres, hg], by simp [hres, hd],
            by simp [hres, he, hg, hd, ht], by simp [hres, ht], by simp [hd]⟩
      · have hres : (updateRepo o entry dryRun force).1 =
            UpdateResult.skipped "detached HEAD" := by
          unfold updateRepo
          simp only [he, hg, hd]
          rw [if_neg (by simp), if_neg (by simp), if_pos (by trivial)]
        refine ⟨by simp [hres], by simp [hres, hg], by simp [hres, he, hg, hd],
          by simp [hres, hd], by simp [hres, hd], fun _ _ => hres⟩

/-- Witness for C1 at a concrete detached-and-dirty repository. -/
theorem updateRepo_skip_priority_witness :
    (updateRepo
      { discovered := [], isNested := fun _ => false, remoteUrl := fun _ => none,
        fs := fun _ =>
          { pathExists := true, dotGitExists := true,
            statusCall := Except.ok
              { current := some "main", detached := true,
                tracking := some "origin/main", ahead := 0, behind := 0,
                files := ["dirty.txt"] } },
        cloneResult := fun _ _ => Except.ok (), cloneDiskEffect := fun _ _ d => d,
        fetchResult := fun _ => Except.ok (), resetResult := fun _ => Except.ok 0,
        pullResult := fun _ => Except.ok 0, usesLfs := fun _ => false,
        github := fun _ _ => none, now := "t" }
      { id := "h:o/r", host := "h", owner := "o", repo := "r", cloneUrl := "c",
        description := none, tags := none, defaultRemoteName := "origin",
        updateStrategy := "hard-reset", submodules := "none", lfs := "auto",
        managed := true } false false).1 = UpdateResult.skipped "detached HEAD" := by
  exact (updateRepo_skip_priority _ _ false false).2.2.2.2.2 rfl rfl

lemma exceptBindOk {α β : Type} (a : α) (f : α → Except String β) :
    (Except.ok a : Except String α) >>= f = f a := rfl

lemma exceptBindErr {α β : Type} (e : String) (f : α → Except String β) :
    (Except.error e : Except String α) >>= f = Except.error e := rfl

lemma exceptMapOk {α β : Type} (a : α) (f : α → β) :
    f <$> (Except.ok a : Except String α) = Except.ok (f a) := rfl

lemma exceptMapErr {α β : Type} (e : String) (f : α → β) :
    f <$> (Except.error e : Except String α) = Except.error e := rfl

lemma exceptMMapOk {α β : Type} (a : α) (f : α → β) :
    Except.map f (Except.ok a : Except String α) = Except.ok (f a) := rfl

lemma dedupFirst_mem : ∀ (l : List String) (x : String), x ∈ dedupFirst l → x ∈ l := by
  intro l
  induction l using dedupFirst.induct with
  | case1 => intro x h; simp [dedupFirst] at h
  | case2 y rest ih =>
    intro x h
    rw [dedupFirst] at h
    rcases List.mem_cons.1 h with rfl | h2
    · exact List.mem_cons_self _ _
    · exact List.mem_cons_of_mem _ (List.mem_of_mem_filter (ih x h2))

lemma dedupFirst_nodup : ∀ l : List String, (dedupFirst l).Nodup := by
  intro l
  induction l using dedupFirst.induct with
  | case1 => simp [dedupFirst]
  | case2 y rest ih =>
    rw [dedupFirst]
    refine List.nodup_cons.2 ⟨?_, ih⟩
    intro hmem
    have h2 := dedupFirst_mem _ _ hmem
    simp only [List.mem_filter] at h2
    simpa using h2.2

/-- A concrete well-formed entry used by counterexamples and witnesses. -/
def sampleEntry : RegistryEntry :=
  { id := "github.com:own/rep", host := "github.com", owner := "own", repo := "rep",
    cloneUrl := "https://github.com/own/rep.git", description := none, tags := none,
    defaultRemoteName := "origin", updateStrategy := "hard-reset",
    submodules := "none", lfs := "auto", managed := true }

/-- A concrete registry holding exactly `sampleEntry`. -/
def sampleRegistry : Registry :=
  { version := "1.0.0", repos := [sampleEntry], tombstones := [] }

/-- C4 counterexample: `addTombstone` is a Registry mutation, yet applying
it with the id of a still-active entry leaves that id simultaneously in
`tombstones` and among the active entry ids — the claimed disjointness
does not hold after every mutation. -/
theorem addTombstone_breaks_disjointness :
    "github.com:own/rep" ∈ (addTombstone sampleRegistry "github.com:own/rep").tombstones ∧
    "github.com:own/rep" ∈
      (addTombstone sampleRegistry "github.com:own/rep").repos.map RegistryEntry.id := by
  decide

/-- C4 (amended): normalization — which runs on every registry read and
write — always establishes the tombstone invariant: the tombstone set is
duplicate-free and disjoint from the active entry ids.  `removeEntry` and
`removeTombstone` preserve the invariant; `addEntry`, `updateEntry` and
`addTombstone` may transiently violate it in memory until the next
normalizing write. -/
theorem tombstone_invariant_amended :
    (∀ (raw : Jv) (res : NormResult Registry), normalizeRegistry raw = Except.ok res →
      res.data.tombstones.Nodup ∧
        ∀ t ∈ res.data.tombstones, t ∉ res.data.repos.map RegistryEntry.id) ∧
    (∀ (r : Registry) (id : String) (r2 : Registry),
      (∀ t ∈ r.tombstones, t ∉ r.repos.map RegistryEntry.id) →
      removeEntry r id = Except.ok r2 →
      (∀ t ∈ r2.tombstones, t ∉ r2.repos.map RegistryEntry.id)) ∧
    (∀ (r : Registry) (id : String),
      r.tombstones.Nodup → (removeTombstone r id).tombstones.Nodup) ∧
    (∀ (r : Registry) (id : String),
      (∀ t ∈ r.tombstones, t ∉ r.repos.map RegistryEntry.id) →
      ∀ t ∈ (removeTombstone r id).tombstones,
        t ∉ (removeTombstone r id).repos.map RegistryEntry.id) := by
  refine ⟨?_, ?_, ?_, ?_⟩
  · intro raw res h
    rcases raw with _ | _ | b | n | s | xs | fields <;>
      simp [normalizeRegistry] at h
    rcases hv : getF fields "version" with _ | _ | b | n | sv | xs2 | f2 <;>
      rw [hv] at h
    case' str =>
      rcases hr : getF fields "repos" with _ | _ | b | n | sr | repoVals | f3 <;>
        rw [hr] at h
      case' arr =>
        dsimp only at h
        rcases hne : normalizeEntries repoVals 0 with msg | ⟨repos, ch, iss⟩ <;>
          rw [hne] at h
        · rw [exceptMapErr] at h
          exact Except.noConfusion h
        · rw [exceptMapOk] at h
          cases h
          refine ⟨dedupFirst_nodup _, ?_⟩
          intro t ht hmem
          have h2 := dedupFirst_mem _ _ ht
          rw [List.mem_filter] at h2
          have h3 := of_decide_eq_true h2.2
          obtain ⟨x, hx, hxid⟩ := List.mem_map.1 hmem
          exact h3 x hx hxid
      all_goals simp at h
    all_goals simp at h
  · intro r id r2 hinv h t ht
    unfold removeEntry at h
    dsimp only at h
    split at h
    · exact absurd h (by simp)
    · cases h
      intro hmem
      obtain ⟨x, hx, hxid⟩ := List.mem_map.1 hmem
      exact hinv t ht (List.mem_map.2 ⟨x, List.mem_of_mem_filter hx, hxid⟩)
  · intro r id hnd
    unfold removeTombstone
    split
    · exact hnd
    · exact hnd.filter _
  · intro r id hinv t ht
    unfold removeTombstone at ht ⊢
    by_cases hc : ¬ r.tombstones.contains id = true
    · rw [if_pos hc] at ht ⊢
      exact hinv t ht
    · rw [if_neg hc] at ht ⊢
      exact hinv t (List.mem_of_mem_filter ht)

lemma jsSplit_eq (c : Char) : ∀ l : List Char,
    jsSplit c l = (l.takeWhile (fun y => y ≠ c)) ::
      (match l.drop ((l.takeWhile (fun y => y ≠ c)).length) with
       | [] => []
       | _ :: r2 => jsSplit c r2)
  | [] => by simp [jsSplit]
  | x :: rest => by
    by_cases hx : x = c
    · subst hx
      simp [jsSplit, List.takeWhile]
    · rw [jsSplit, if_neg hx, jsSplit_eq c rest]
      simp only [List.takeWhile]
      rw [show (decide (x ≠ c)) = true by simpa using hx]
      simp only [List.length_cons, List.drop_succ_cons]

/-- The claim's reading of `filterByPattern`: the owner must string-equal
the first '/'-separated segment (literal `*` matching any owner) and the
repo must string-equal the second segment (an absent segment or literal
`*` matching any repo); no other wildcard syntax. -/
def patternSpecMatches (pattern : String) (e : RegistryEntry) : Bool :=
  let l := pattern.toList
  let ownerSeg := l.takeWhile (fun c => c ≠ '/')
  let ownerOk : Bool := ownerSeg = ['*'] || e.owner.toList = ownerSeg
  let repoOk : Bool :=
    match l.drop ownerSeg.length with
    | [] => true
    | _ :: r2 =>
      let repoSeg := r2.takeWhile (fun c => c ≠ '/')
      repoSeg = ['*'] || e.repo.toList = repoSeg
  ownerOk && repoOk

/-- The amended reading: additionally, an *empty* repo segment (a pattern
with a trailing '/') matches any repo, mirroring JS falsiness. -/
def patternAmendedMatches (pattern : String) (e : RegistryEntry) : Bool :=
  let l := pattern.toList
  let ownerSeg := l.takeWhile (fun c => c ≠ '/')
  let ownerOk : Bool := ownerSeg = ['*'] || e.owner.toList = ownerSeg
  let repoOk : Bool :=
    match l.drop ownerSeg.length with
    | [] => true
    | _ :: r2 =>
      let repoSeg := r2.takeWhile (fun c => c ≠ '/')
      repoSeg = [] || repoSeg = ['*'] || e.repo.toList = repoSeg
  ownerOk && repoOk

/-- C10 counterexample: for the pattern `own/` (empty repo segment),
`filterByPattern` selects the entry although the claimed predicate — repo
string-equal to the segment after the first '/' — rejects it: the code
treats an empty segment as a wildcard, not as a literal. -/
theorem filterByPattern_counterexample :
    filterByPattern sampleRegistry "own/" = [sampleEntry] ∧
    patternSpecMatches "own/" sampleEntry = false := by
  constructor
  · decide
  · decide

/-- C10 (amended): `filterByPattern` selects exactly the entries whose
owner equals the first '/'-separated segment of the pattern (literal `*`
matching any owner) and whose repo equals the second segment, where an
absent segment, an empty segment, or literal `*` matches any repo; no
other wildcard or glob syntax is interpreted, so a partial wildcard such
as `own*` only matches a literally equal owner. -/
theorem filterByPattern_amended (r : Registry) (pattern : String) :
    filterByPattern r pattern = r.repos.filter (patternAmendedMatches pattern) := by
  unfold filterByPattern patternAmendedMatches
  dsimp only
  rw [jsSplit_eq]
  rcases hdrop : pattern.toList.drop
      ((pattern.toList.takeWhile (fun y => y ≠ '/')).length) with _ | ⟨d, r2⟩ <;>
    dsimp only
  · apply List.filter_congr
    intro e _
    simp
  · rw [jsSplit_eq '/' r2]
    apply List.filter_congr
    intro e _
    dsimp only
    simp

lemma removeUnder_not_mem (dir : String) (disk : List String) :
    dir ∉ removeUnder dir disk := by
  intro h
  rw [removeUnder, List.mem_filter] at h
  simp at h

lemma cloneStep_errors_mono (o : SyncOracle) (d : Bool) (st : CloneState)
    (entry : RegistryEntry) (x : String × String) (hx : x ∈ st.errors) :
    x ∈ (cloneStep o d st entry).errors := by
  unfold cloneStep
  dsimp only
  split
  · exact hx
  split
  · exact hx
  split
  · exact hx
  split
  · exact hx
  · exact List.mem_append_left _ hx

lemma clonePhaseFold_errors_mono (o : SyncOracle) (d : Bool) :
    ∀ (l : List RegistryEntry) (st : CloneState) (x : String × String),
      x ∈ st.errors → x ∈ (List.foldl (cloneStep o d) st l).errors
  | [], _, _, hx => hx
  | e :: rest, st, x, hx =>
    clonePhaseFold_errors_mono o d rest (cloneStep o d st e) x
      (cloneStep_errors_mono o d st e x hx)

/-- C3: in the clone phase (not dry-run), for an entry whose clone fails:
if the owner-level directory did not exist just before the clone, it does
not exist after the failed entry is processed (rollback removed it), the
failure is recorded as a per-entry error, and the remaining entries are
still processed — the final state is the fold over the rest, and the
recorded error survives to the end of the phase. -/
theorem cloneRollback (o : SyncOracle) (registry : Registry) (disk0 : List String)
    (pre post : List RegistryEntry) (entry : RegistryEntry) (msg : String)
    (hrepos : registry.repos = pre ++ entry :: post)
    (hmanaged : entry.managed = true)
    (hmissing : ¬ ((statusOf o (repoPath entry)).exists' = true ∧
      (statusOf o (repoPath entry)).isGitRepo = true))
    (hfail : o.cloneResult entry.cloneUrl (repoPath entry) = Except.error msg)
    (hownerPre : entry.owner ∉
      (List.foldl (cloneStep o false)
        { disk := disk0, cloned := [], errors := [], effects := [] } pre).disk) :
    entry.owner ∉
      (cloneStep o false
        (List.foldl (cloneStep o false)
          { disk := disk0, cloned := [], errors := [], effects := [] } pre)
        entry).disk ∧
    (entry.owner ++ "/" ++ entry.repo, msg) ∈
      (cloneStep o false
        (List.foldl (cloneStep o false)
          { disk := disk0, cloned := [], errors := [], effects := [] } pre)
        entry).errors ∧
    clonePhase o registry false disk0 =
      List.foldl (cloneStep o false)
        (cloneStep o false
          (List.foldl (cloneStep o false)
            { disk := disk0, cloned := [], errors := [], effects := [] } pre)
          entry) post ∧
    (entry.owner ++ "/" ++ entry.repo, msg) ∈
      (clonePhase o registry false disk0).errors := by
  set stMid := List.foldl (cloneStep o false)
    { disk := disk0, cloned := [], errors := [], effects := [] } pre with hmid
  have hstep : cloneStep o false stMid entry =
      { disk :=
          if (¬ stMid.disk.contains entry.owner) &&
              (o.cloneDiskEffect entry.cloneUrl (repoPath entry) stMid.disk).contains
                entry.owner then
            removeUnder entry.owner
              (o.cloneDiskEffect entry.cloneUrl (repoPath entry) stMid.disk)
          else o.cloneDiskEffect entry.cloneUrl (repoPath entry) stMid.disk,
        cloned := stMid.cloned,
        errors := stMid.errors ++ [(entry.owner ++ "/" ++ entry.repo, msg)],
        effects := stMid.effects ++ [Effect.cloneE entry.cloneUrl (repoPath entry)] ++
          (if (¬ stMid.disk.contains entry.owner) &&
              (o.cloneDiskEffect entry.cloneUrl (repoPath entry) stMid.disk).contains
                entry.owner then
            [Effect.rmE entry.owner] else []) } := by
    unfold cloneStep
    rw [if_neg (by simp [hmanaged]),
      if_neg (by intro hc; exact hmissing (by simpa using hc)),
      if_neg (by simp)]
    rw [hfail]
  have hnc : stMid.disk.contains entry.owner = false := by
    rw [← Bool.not_eq_true]
    intro hcontra
    exact hownerPre (by simpa using hcontra)
  have hnotmem : entry.owner ∉ (cloneStep o false stMid entry).disk := by
    rw [hstep]
    by_cases hc : (o.cloneDiskEffect entry.cloneUrl (repoPath entry)
        stMid.disk).contains entry.owner = true
    · rw [if_pos (by rw [hnc, hc]; decide)]
      exact removeUnder_not_mem _ _
    · have hc2 : (o.cloneDiskEffect entry.cloneUrl (repoPath entry)
          stMid.disk).contains entry.owner = false := Bool.eq_false_iff.2 hc
      rw [if_neg (by rw [hc2]; simp)]
      intro hcontra
      exact hc (by simpa using hcontra)
  have herr : (entry.owner ++ "/" ++ entry.repo, msg) ∈
      (cloneStep o false stMid entry).errors := by
    rw [hstep]
    exact List.mem_append_right _ (List.mem_singleton.2 rfl)
  have hphase : clonePhase o registry false disk0 =
      List.foldl (cloneStep o false) (cloneStep o false stMid entry) post := by
    unfold clonePhase
    rw [hrepos, List.foldl_append, List.foldl_cons]
  refine ⟨hnotmem, herr, hphase, ?_⟩
  rw [hphase]
  exact clonePhaseFold_errors_mono o false post _ _ herr

/-- The oracle used by the clone-rollback witness: every clone fails and
the clone attempt creates the owner directory before failing. -/
def c3Oracle : SyncOracle :=
  { discovered := [], isNested := fun _ => false, remoteUrl := fun _ => none,
    fs := fun _ =>
      { pathExists := false, dotGitExists := false, statusCall := Except.error "e" },
    cloneResult := fun _ _ => Except.error "network down",
    cloneDiskEffect := fun _ _ d => d ++ ["own", "own/rep"],
    fetchResult := fun _ => Except.ok (), resetResult := fun _ => Except.ok 0,
    pullResult := fun _ => Except.ok 0, usesLfs := fun _ => false,
    github := fun _ _ => none, now := "t" }

/-- Witness for C3 at a concrete failing clone. -/
theorem cloneRollback_witness :
    "own" ∉ (clonePhase c3Oracle sampleRegistry false []).disk ∧
    ("own/rep", "network down") ∈ (clonePhase c3Oracle sampleRegistry false []).errors := by
  have h := cloneRollback c3Oracle sampleRegistry [] [] [] sampleEntry "network down"
    rfl rfl (by decide) rfl (by simp)
  refine ⟨?_, h.2.2.2⟩
  rw [h.2.2.1]
  exact h.1

/-- The discovered repos the adopt phase reports (read-only computation):
not yet tracked by owner/repo, not nested, with a parseable remote whose
id is not already registered. -/
def adoptCandidates (o : SyncOracle) (r : Registry) : List DiscoveredRepo :=
  o.discovered.filter (fun d =>
    !(r.repos.find? (fun e => e.owner == d.owner && e.repo == d.repo)).isSome &&
    !o.isNested d.localPath &&
    (match o.remoteUrl d.localPath with
     | none => false
     | some url =>
       match parseGitUrl url with
       | Except.error _ => false
       | Except.ok parsed => !(findEntry r (generateRepoId parsed)).isSome))

/-- The managed entries missing from disk (read-only computation). -/
def cloneCandidates (o : SyncOracle) (l : List RegistryEntry) : List RegistryEntry :=
  l.filter (fun e => e.managed &&
    !((statusOf o (repoPath e)).exists' && (statusOf o (repoPath e)).isGitRepo))

/-- The entries phase 3 iterates over. -/
def updateTargets (r : Registry) (filt : Option String) : List RegistryEntry :=
  let base := r.repos.filter (fun e => e.managed)
  match filt with
  | none => base
  | some pat =>
    if pat = "" then base else filterByPattern { r with repos := base } pat

/-- The entries the optional refresh phase iterates over. -/
def githubTargets (r : Registry) : List RegistryEntry :=
  r.repos.filter (fun e => e.host == "github.com")

lemma adoptStep_dry (o : SyncOracle) (orig : Registry) (st : AdoptState)
    (d : DiscoveredRepo) (hreg : st.registry = orig) :
    adoptStep o orig true st d = Except.ok
      { adopted := st.adopted ++
          (if (!(orig.repos.find? (fun e => e.owner == d.owner && e.repo == d.repo)).isSome &&
               !o.isNested d.localPath &&
               (match o.remoteUrl d.localPath with
                | none => false
                | some url =>
                  match parseGitUrl url with
                  | Except.error _ => false
                  | Except.ok parsed => !(findEntry orig (generateRepoId parsed)).isSome)) then
             [(d.owner, d.repo)] else []),
        registry := st.registry } := by
  unfold adoptStep
  by_cases h1 : (orig.repos.find? (fun e => e.owner == d.owner && e.repo == d.repo)).isSome
  · rw [if_pos h1]
    simp [h1]
  · rw [if_neg h1]
    by_cases h2 : o.isNested d.localPath = true
    · rw [if_pos h2]
      simp [h1, h2]
    · rw [if_neg h2]
      rcases hru : o.remoteUrl d.localPath with _ | url
      · simp [h1, h2, hru]
      · rcases hp : parseGitUrl url with e | parsed
        · simp [h1, h2, hru, hp]
        · dsimp only
          rw [hp]
          dsimp only
          by_cases h3 : (findEntry st.registry (generateRepoId parsed)).isSome
          · rw [if_pos h3]
            rw [hreg] at h3
            simp [h1, h2, hru, hp, h3]
          · rw [if_neg h3, if_pos rfl]
            rw [hreg] at h3
            simp [h1, h2, hru, hp, h3]

lemma adoptGo_dry (o : SyncOracle) (orig : Registry) :
    ∀ (l : List DiscoveredRepo) (st : AdoptState), st.registry = orig →
      adoptGo o orig true l st = Except.ok
        { adopted := st.adopted ++
            (l.filter (fun d =>
              !(orig.repos.find? (fun e => e.owner == d.owner && e.repo == d.repo)).isSome &&
              !o.isNested d.localPath &&
              (match o.remoteUrl d.localPath with
               | none => false
               | some url =>
                 match parseGitUrl url with
                 | Except.error _ => false
                 | Except.ok parsed =>
                   !(findEntry orig (generateRepoId parsed)).isSome))).map
              (fun d => (d.owner, d.repo)),
          registry := st.registry }
  | [], st, hreg => by simp [adoptGo]
  | d :: rest, st, hreg => by
    have ih : ∀ a : List (String × String),
        adoptGo o orig true rest { adopted := a, registry := st.registry } =
          Except.ok
            { adopted := a ++
                (rest.filter (fun d =>
                  !(orig.repos.find? (fun e => e.owner == d.owner && e.repo == d.repo)).isSome &&
                  !o.isNested d.localPath &&
                  (match o.remoteUrl d.localPath with
                   | none => false
                   | some url =>
                     match parseGitUrl url with
                     | Except.error _ => false
                     | Except.ok parsed =>
                       !(findEntry orig (generateRepoId parsed)).isSome))).map
                  (fun d => (d.owner, d.repo)),
              registry := st.registry } :=
      fun a => adoptGo_dry o orig rest { adopted := a, registry := st.registry } hreg
    rw [adoptGo, adoptStep_dry o orig st d hreg, exceptBindOk, ih]
    rw [List.filter_cons]
    by_cases hc : (!(orig.repos.find? (fun e => e.owner == d.owner && e.repo == d.repo)).isSome &&
        !o.isNested d.localPath &&
        (match o.remoteUrl d.localPath with
         | none => false
         | some url =>
           match parseGitUrl url with
           | Except.error _ => false
           | Except.ok parsed =>
             !(findEntry orig (generateRepoId parsed)).isSome)) = true
    · simp only [hc, if_pos, List.map_cons, List.append_assoc, List.singleton_append]
    · simp only [hc, Bool.false_eq_true, if_false, if_neg, List.append_nil]

/-- `adoptPhase` with `dryRun:true` reports the candidates and leaves the
registry untouched. -/
lemma adoptPhase_dry (o : SyncOracle) (r : Registry) :
    adoptPhase o r true = Except.ok
      { adopted := (adoptCandidates o r).map (fun d => (d.owner, d.repo)),
        registry := r } := by
  unfold adoptPhase adoptCandidates
  rw [adoptGo_dry o r o.discovered { adopted := [], registry := r } rfl]
  simp

lemma cloneStep_dry (o : SyncOracle) (st : CloneState) (e : RegistryEntry) :
    cloneStep o true st e =
      { disk := st.disk,
        cloned := st.cloned ++
          (if e.managed &&
              !((statusOf o (repoPath e)).exists' && (statusOf o (repoPath e)).isGitRepo)
           then [(e.owner, e.repo)] else []),
        errors := st.errors, effects := st.effects } := by
  unfold cloneStep
  by_cases h1 : e.managed = true
  · rw [if_neg (by simp [h1])]
    by_cases h2 : ((statusOf o (repoPath e)).exists' &&
        (statusOf o (repoPath e)).isGitRepo) = true
    · rw [if_pos h2]
      simp [h1, h2]
    · rw [if_neg h2, if_pos rfl]
      simp only [h1, Bool.true_and]
      rw [show (!((statusOf o (repoPath e)).exists' &&
        (statusOf o (repoPath e)).isGitRepo)) = true by simp [Bool.eq_false_iff.2 h2]]
      simp
  · rw [if_pos (by simp [Bool.eq_false_iff.2 h1])]
    simp [Bool.eq_false_iff.2 h1]

lemma cloneFold_dry (o : SyncOracle) :
    ∀ (l : List RegistryEntry) (st : CloneState),
      List.foldl (cloneStep o true) st l =
        { disk := st.disk,
          cloned := st.cloned ++ (cloneCandidates o l).map (fun e => (e.owner, e.repo)),
          errors := st.errors, effects := st.effects }
  | [], st => by simp [cloneCandidates]
  | e :: rest, st => by
    rw [List.foldl_cons, cloneStep_dry, cloneFold_dry o rest]
    unfold cloneCandidates
    rw [List.filter_cons]
    by_cases hc : (e.managed &&
        !((statusOf o (repoPath e)).exists' && (statusOf o (repoPath e)).isGitRepo)) = true
    · have hc2 : e.managed = true ∧ ((statusOf o (repoPath e)).exists' = false ∨
          (statusOf o (repoPath e)).isGitRepo = false) := by simpa using hc
      simp [hc, hc2]
    · have hc2 : ¬(e.managed = true ∧ ((statusOf o (repoPath e)).exists' = false ∨
          (statusOf o (repoPath e)).isGitRepo = false)) := by simpa using hc
      simp [Bool.eq_false_iff.2 hc, hc2]

/-- `clonePhase` with `dryRun:true` reports the candidates and leaves the
disk model, errors, and effect log untouched. -/
lemma clonePhase_dry (o : SyncOracle) (r : Registry) (disk : List String) :
    clonePhase o r true disk =
      { disk := disk,
        cloned := (cloneCandidates o r.repos).map (fun e => (e.owner, e.repo)),
        errors := [], effects := [] } := by
  unfold clonePhase
  rw [cloneFold_dry]
  simp

lemma updateRepo_dry (o : SyncOracle) (e : RegistryEntry) (force : Bool) :
    (updateRepo o e true force).2 = [] ∧
    ((updateRepo o e true force).1 = UpdateResult.updated 0 ∨
      ∃ reason, (updateRepo o e true force).1 = UpdateResult.skipped reason) := by
  unfold updateRepo
  dsimp only
  split
  · exact ⟨rfl, Or.inr ⟨_, rfl⟩⟩
  split
  · exact ⟨rfl, Or.inr ⟨_, rfl⟩⟩
  split
  · exact ⟨rfl, Or.inr ⟨_, rfl⟩⟩
  split
  · exact ⟨rfl, Or.inr ⟨_, rfl⟩⟩
  split
  · exact ⟨rfl, Or.inr ⟨_, rfl⟩⟩
  rw [if_pos rfl]
  exact ⟨rfl, Or.inl rfl⟩

lemma updateStep_dry (o : SyncOracle) (force : Bool)
    (st : LocalState × List Summary × List Effect) (e : RegistryEntry) :
    ∃ summ : Summary, updateStep o true force st e = (st.1, st.2.1 ++ [summ], st.2.2) := by
  obtain ⟨heff, hres⟩ := updateRepo_dry o e force
  unfold updateStep
  dsimp only
  rcases hres with h | ⟨reason, h⟩ <;> rw [h, heff]
  · exact ⟨Summary.mk (e.owner ++ "/" ++ e.repo) SummaryAction.updated none, by simp⟩
  · exact ⟨Summary.mk (e.owner ++ "/" ++ e.repo) SummaryAction.skipped (some reason),
      by simp⟩

lemma updateFold_dry (o : SyncOracle) (force : Bool) :
    ∀ (l : List RegistryEntry) (st : LocalState × List Summary × List Effect),
      ∃ summs : List Summary,
        List.foldl (updateStep o true force) st l = (st.1, st.2.1 ++ summs, st.2.2) ∧
        summs.length = l.length
  | [], st => ⟨[], by simp, rfl⟩
  | e :: rest, st => by
    obtain ⟨summ, hstep⟩ := updateStep_dry o force st e
    obtain ⟨summs, hfold, hlen⟩ :=
      updateFold_dry o force rest (st.1, st.2.1 ++ [summ], st.2.2)
    exact ⟨[summ] ++ summs,
      by rw [List.foldl_cons, hstep, hfold]; simp,
      by simp [hlen]⟩

lemma refreshGo_dry (o : SyncOracle) :
    ∀ (l : List RegistryEntry) (st : Registry × List Summary),
      ∃ summs : List Summary,
        refreshGo o true l st = Except.ok (st.1, st.2 ++ summs) ∧
        summs.length = l.length
  | [], st => ⟨[], by simp [refreshGo], rfl⟩
  | e :: rest, st => by
    obtain ⟨summs, hgo, hlen⟩ := refreshGo_dry o rest
      (st.1, st.2 ++ [Summary.mk (e.owner ++ "/" ++ e.repo) SummaryAction.refreshed none])
    refine ⟨[Summary.mk (e.owner ++ "/" ++ e.repo) SummaryAction.refreshed none] ++ summs,
      ?_, by simp [hlen]⟩
    rw [refreshGo, show refreshStep o true st e = Except.ok (st.1, st.2 ++
      [Summary.mk (e.owner ++ "/" ++ e.repo) SummaryAction.refreshed none]) from rfl,
      exceptBindOk, hgo]
    simp

/-- C2: a sync run with `dryRun:true` issues no mutating adapter call and
no store write (empty effect log), leaves the in-memory Registry and
LocalState values and the disk model unchanged, and still produces the
per-entry summary of a run: one record per adopted candidate, per missing
managed entry, per update target, and per refresh target. -/
theorem dryRun_purity (o : SyncOracle) (args : SyncArgs) (r : Registry)
    (ls : LocalState) (disk : List String) (hdry : args.dryRun = true) :
    ∃ out : RunOut, runSync o args r ls disk = Except.ok out ∧
      out.effects = [] ∧ out.registry = r ∧ out.localState = ls ∧ out.disk = disk ∧
      out.summaries.length =
        (adoptCandidates o r).length + (cloneCandidates o r.repos).length +
        (updateTargets r args.filter).length +
        (if args.refresh then (githubTargets r).length else 0) := by
  obtain ⟨filt, dry, force, refresh⟩ := args
  dsimp only at hdry ⊢
  subst hdry
  have hL : updateTargets r filt = (match filt with
      | none => r.repos.filter (fun e => e.managed)
      | some pat =>
        if pat = "" then r.repos.filter (fun e => e.managed)
        else filterByPattern { r with repos := r.repos.filter (fun e => e.managed) } pat) :=
    rfl
  have hG : githubTargets r = r.repos.filter (fun e => e.host == "github.com") := rfl
  unfold runSync
  rw [adoptPhase_dry, exceptBindOk]
  dsimp only
  rw [clonePhase_dry]
  dsimp only
  obtain ⟨updSumms, hupd, hupdlen⟩ :=
    updateFold_dry o force (updateTargets r filt) (ls, [], [])
  rw [hL] at hupd
  rw [hupd]
  dsimp only
  rcases refresh with _ | _
  · rw [if_neg (by simp)]
    rw [show (pure (r, ([] : List Summary)) : Except String (Registry × List Summary)) =
      Except.ok (r, []) from rfl, exceptBindOk]
    dsimp only
    rw [if_neg (by simp)]
    refine ⟨_, rfl, ?_, rfl, rfl, rfl, ?_⟩
    · simp
    · simp [hupdlen]
      omega
  · rw [if_pos rfl]
    obtain ⟨refSumms, href, hreflen⟩ := refreshGo_dry o (githubTargets r) (r, [])
    rw [hG] at href
    rw [href, exceptBindOk]
    dsimp only
    rw [if_neg (by simp)]
    refine ⟨_, rfl, ?_, rfl, rfl, rfl, ?_⟩
    · simp
    · simp [hupdlen, hreflen]
      omega

/-- Witness for C2 at a concrete dry run. -/
theorem dryRun_purity_witness :
    ∃ out : RunOut,
      runSync c3Oracle { filter := none, dryRun := true, force := false, refresh := false }
          sampleRegistry { version := "1.0.0", lastSyncRun := none, repos := [] } [] =
        Except.ok out ∧
      out.effects = [] ∧ out.registry = sampleRegistry ∧
      out.localState = { version := "1.0.0", lastSyncRun := none, repos := [] } ∧
      out.disk = [] ∧
      out.summaries.length =
        (adoptCandidates c3Oracle sampleRegistry).length +
        (cloneCandidates c3Oracle sampleRegistry.repos).length +
        (updateTargets sampleRegistry none).length + 0 :=
  dryRun_purity c3Oracle
    { filter := none, dryRun := true, force := false, refresh := false }
    sampleRegistry { version := "1.0.0", lastSyncRun := none, repos := [] } [] rfl

/-! ## Idempotence and round-trip of normalization (C5, C6)

`entryFields` is the in-memory JS object a normalized entry denotes
(optional fields are keys holding `undefined`); `entryFieldsJson` is its
serialized form (`JSON.stringify` omits keys holding `undefined`, and all
remaining values — strings, booleans, arrays of strings — round-trip
through JSON unchanged). -/

def optStrJv : Option String → Jv
  | none => Jv.undef
  | some s => Jv.str s

def optTagsJv : Option (List String) → Jv
  | none => Jv.undef
  | some l => Jv.arr (l.map Jv.str)

def entryFields (e : RegistryEntry) : List (String × Jv) :=
  [("id", Jv.str e.id), ("host", Jv.str e.host), ("owner", Jv.str e.owner),
   ("repo", Jv.str e.repo), ("cloneUrl", Jv.str e.cloneUrl),
   ("description", optStrJv e.description), ("tags", optTagsJv e.tags),
   ("defaultRemoteName", Jv.str e.defaultRemoteName),
   ("updateStrategy", Jv.str e.updateStrategy),
   ("submodules", Jv.str e.submodules),
   ("lfs", Jv.str e.lfs), ("managed", Jv.bool e.managed)]

def entryFieldsJson (e : RegistryEntry) : List (String × Jv) :=
  [("id", Jv.str e.id), ("host", Jv.str e.host), ("owner", Jv.str e.owner),
   ("repo", Jv.str e.repo), ("cloneUrl", Jv.str e.cloneUrl)] ++
  (match e.description with
   | none => []
   | some s => [("description", Jv.str s)]) ++
  (match e.tags with
   | none => []
   | some l => [("tags", Jv.arr (l.map Jv.str))]) ++
  [("defaultRemoteName", Jv.str e.defaultRemoteName),
   ("updateStrategy", Jv.str e.updateStrategy),
   ("submodules", Jv.str e.submodules),
   ("lfs", Jv.str e.lfs), ("managed", Jv.bool e.managed)]

/-- The in-memory JS value of a registry document. -/
def registryToJv (g : Registry) : Jv :=
  Jv.obj [("version", Jv.str g.version),
          ("repos", Jv.arr (g.repos.map (fun e => Jv.obj (entryFields e)))),
          ("tombstones", Jv.arr (g.tombstones.map Jv.str))]

/-- The parsed form of the serialized registry document
(`JSON.parse(JSON.stringify(g))`): keys holding `undefined` are gone. -/
def registryToJsonDoc (g : Registry) : Jv :=
  Jv.obj [("version", Jv.str g.version),
          ("repos", Jv.arr (g.repos.map (fun e => Jv.obj (entryFieldsJson e)))),
          ("tombstones", Jv.arr (g.tombstones.map Jv.str))]

/-- The in-memory JS value of a local-state document (`lastSyncRun` and
per-entry `lastSyncedAt` are keys holding `undefined` when absent). -/
def localToJv (st : LocalState) : Jv :=
  Jv.obj [("version", Jv.str st.version),
          ("lastSyncRun", optStrJv st.lastSyncRun),
          ("repos", Jv.obj (st.repos.map (fun p =>
            (p.1, Jv.obj [("lastSyncedAt", optStrJv p.2)]))))]

/-- Well-formedness of a normalized entry: non-empty identity fields and
remote name, valid enumerated fields, and non-empty tags when present. -/
def entryWf (e : RegistryEntry) : Prop :=
  0 < e.id.length ∧ 0 < e.host.length ∧ 0 < e.owner.length ∧ 0 < e.repo.length ∧
  0 < e.cloneUrl.length ∧ 0 < e.defaultRemoteName.length ∧
  (e.updateStrategy = "ff-only" ∨ e.updateStrategy = "hard-reset") ∧
  (e.submodules = "recursive" ∨ e.submodules = "none") ∧
  (e.lfs = "auto" ∨ e.lfs = "always" ∨ e.lfs = "never") ∧
  (∀ l, e.tags = some l → 0 < l.length)

/-- Well-formedness of a normalized registry document. -/
def registryWf (g : Registry) : Prop :=
  g.version = "1.0.0" ∧ (∀ e ∈ g.repos, entryWf e) ∧
  (∀ t ∈ g.tombstones, 0 < t.length) ∧ g.tombstones.Nodup ∧
  (∀ t ∈ g.tombstones, ∀ e ∈ g.repos, e.id ≠ t)

lemma filterMapStrMap (tl : List String) :
    List.filterMap ((fun v => match v with | Jv.str s => some s | _ => none) ∘ Jv.str)
      tl = tl := by
  induction tl with
  | nil => rfl
  | cons a l ih => simp [List.filterMap_cons, ih, Function.comp]

lemma normalizeRegistryEntry_entryFields (e : RegistryEntry) (i : Nat)
    (hwf : entryWf e) :
    normalizeRegistryEntry (entryFields e) i = Except.ok (e, false, []) := by
  obtain ⟨h1, h2, h3, h4, h5, h6, h7, h8, h9, h10⟩ := hwf
  rcases e with ⟨id, host, owner, repo, cloneUrl, desc, tags, drn, us, sm, lfs, mg⟩
  dsimp only at h1 h2 h3 h4 h5 h6 h7 h8 h9 h10
  rcases desc with _ | d <;> rcases tags with _ | tl
  all_goals
    simp only [normalizeRegistryEntry, entryFields, getF, objKeys, optStrJv, optTagsJv,
      requireString, List.find?, List.map, List.filterMap, REGISTRY_ENTRY_KEYS,
      List.contains, DEFAULTS_defaultRemoteName, DEFAULTS_updateStrategy,
      DEFAULTS_submodules, DEFAULTS_lfs]
    simp [Nat.pos_iff_ne_zero.1 h1, Nat.pos_iff_ne_zero.1 h2, Nat.pos_iff_ne_zero.1 h3,
      Nat.pos_iff_ne_zero.1 h4, Nat.pos_iff_ne_zero.1 h5, h6, h7, h8, h9,
      exceptBindOk, filterMapStrMap, Function.comp]
  all_goals exact List.length_pos.1 (h10 tl rfl)

lemma normalizeRegistryEntry_entryFieldsJson (e : RegistryEntry) (i : Nat)
    (hwf : entryWf e) :
    normalizeRegistryEntry (entryFieldsJson e) i = Except.ok (e, false, []) := by
  obtain ⟨h1, h2, h3, h4, h5, h6, h7, h8, h9, h10⟩ := hwf
  rcases e with ⟨id, host, owner, repo, cloneUrl, desc, tags, drn, us, sm, lfs, mg⟩
  dsimp only at h1 h2 h3 h4 h5 h6 h7 h8 h9 h10
  rcases desc with _ | d <;> rcases tags with _ | tl
  all_goals
    simp only [normalizeRegistryEntry, entryFieldsJson, getF, objKeys,
      requireString, List.find?, List.map, List.filterMap, REGISTRY_ENTRY_KEYS,
      List.contains, DEFAULTS_defaultRemoteName, DEFAULTS_updateStrategy,
      DEFAULTS_submodules, DEFAULTS_lfs, List.cons_append, List.nil_append,
      List.append_assoc]
    simp [Nat.pos_iff_ne_zero.1 h1, Nat.pos_iff_ne_zero.1 h2, Nat.pos_iff_ne_zero.1 h3,
      Nat.pos_iff_ne_zero.1 h4, Nat.pos_iff_ne_zero.1 h5, h6, h7, h8, h9,
      exceptBindOk, filterMapStrMap, Function.comp]
  all_goals exact List.length_pos.1 (h10 tl rfl)

lemma normalizeEntries_entryFields :
    ∀ (l : List RegistryEntry) (i : Nat), (∀ e ∈ l, entryWf e) →
      normalizeEntries (l.map (fun e => Jv.obj (entryFields e))) i =
        Except.ok (l, false, [])
  | [], i, _ => rfl
  | e :: rest, i, h => by
    rw [List.map_cons, normalizeEntries,
      normalizeRegistryEntry_entryFields e i (h e (List.mem_cons_self _ _)),
      exceptBindOk]
    dsimp only
    rw [normalizeEntries_entryFields rest (i + 1)
        (fun x hx => h x (List.mem_cons_of_mem _ hx)),
      exceptBindOk]
    rfl

lemma normalizeEntries_entryFieldsJson :
    ∀ (l : List RegistryEntry) (i : Nat), (∀ e ∈ l, entryWf e) →
      normalizeEntries (l.map (fun e => Jv.obj (entryFieldsJson e))) i =
        Except.ok (l, false, [])
  | [], i, _ => rfl
  | e :: rest, i, h => by
    rw [List.map_cons, normalizeEntries,
      normalizeRegistryEntry_entryFieldsJson e i (h e (List.mem_cons_self _ _)),
      exceptBindOk]
    dsimp only
    rw [normalizeEntries_entryFieldsJson rest (i + 1)
        (fun x hx => h x (List.mem_cons_of_mem _ hx)),
      exceptBindOk]
    rfl

lemma filterMapTombMap (ts : List String) (h : ∀ t ∈ ts, 0 < t.length) :
    List.filterMap (fun v => match v with
      | Jv.str s => if s.length > 0 then some s else none
      | _ => none) (ts.map Jv.str) = ts := by
  induction ts with
  | nil => rfl
  | cons a l ih =>
    rw [List.map_cons, List.filterMap_cons]
    simp only [if_pos (h a (List.mem_cons_self _ _))]
    rw [ih (fun t ht => h t (List.mem_cons_of_mem _ ht))]

lemma dedupFirst_eq_self : ∀ l : List String, l.Nodup → dedupFirst l = l
  | [], _ => by rw [dedupFirst]
  | x :: rest, h => by
    rw [dedupFirst]
    have hx := (List.nodup_cons.1 h).1
    have hrest := (List.nodup_cons.1 h).2
    rw [List.filter_eq_self.2 (fun a ha => by
      simp only [decide_eq_true_eq]
      rintro rfl
      exact hx ha)]
    rw [dedupFirst_eq_self rest hrest]

lemma normalizeRegistry_canonical (g : Registry) (hwf : registryWf g) :
    normalizeRegistry (registryToJv g) = Except.ok ⟨g, false, []⟩ := by
  obtain ⟨hv, hent, htlen, htnd, htdisj⟩ := hwf
  obtain ⟨gv, grepos, gts⟩ := g
  dsimp only at hv hent htlen htnd htdisj
  subst hv
  have hfilter : gts.filter
      (fun id => ¬((grepos.map RegistryEntry.id).contains id)) = gts := by
    rw [List.filter_eq_self]
    intro t ht
    have hnm : t ∉ grepos.map RegistryEntry.id := by
      intro hm
      obtain ⟨x, hx, hxid⟩ := List.mem_map.1 hm
      exact htdisj t ht x hx hxid
    simpa using hnm
  unfold normalizeRegistry registryToJv
  dsimp only
  rw [show getF [("version", Jv.str "1.0.0"),
      ("repos", Jv.arr (grepos.map (fun e => Jv.obj (entryFields e)))),
      ("tombstones", Jv.arr (gts.map Jv.str))] "version" = Jv.str "1.0.0" from rfl]
  rw [show getF [("version", Jv.str "1.0.0"),
      ("repos", Jv.arr (grepos.map (fun e => Jv.obj (entryFields e)))),
      ("tombstones", Jv.arr (gts.map Jv.str))] "repos" =
      Jv.arr (grepos.map (fun e => Jv.obj (entryFields e))) from rfl]
  rw [show getF [("version", Jv.str "1.0.0"),
      ("repos", Jv.arr (grepos.map (fun e => Jv.obj (entryFields e)))),
      ("tombstones", Jv.arr (gts.map Jv.str))] "tombstones" =
      Jv.arr (gts.map Jv.str) from rfl]
  dsimp only
  rw [normalizeEntries_entryFields grepos 0 hent, exceptBindOk]
  dsimp only
  rw [filterMapTombMap gts htlen]
  simp only [List.length_map, ne_eq, not_true_eq_false, ite_false, if_neg]
  rw [hfilter]
  simp only [ne_eq, not_true_eq_false, ite_false, if_neg]
  rw [dedupFirst_eq_self gts htnd]
  simp [objKeys, pure, Except.pure]

lemma normalizeRegistry_canonicalJson (g : Registry) (hwf : registryWf g) :
    normalizeRegistry (registryToJsonDoc g) = Except.ok ⟨g, false, []⟩ := by
  obtain ⟨hv, hent, htlen, htnd, htdisj⟩ := hwf
  obtain ⟨gv, grepos, gts⟩ := g
  dsimp only at hv hent htlen htnd htdisj
  subst hv
  have hfilter : gts.filter
      (fun id => ¬((grepos.map RegistryEntry.id).contains id)) = gts := by
    rw [List.filter_eq_self]
    intro t ht
    have hnm : t ∉ grepos.map RegistryEntry.id := by
      intro hm
      obtain ⟨x, hx, hxid⟩ := List.mem_map.1 hm
      exact htdisj t ht x hx hxid
    simpa using hnm
  unfold normalizeRegistry registryToJsonDoc
  dsimp only
  rw [show getF [("version", Jv.str "1.0.0"),
      ("repos", Jv.arr (grepos.map (fun e => Jv.obj (entryFieldsJson e)))),
      ("tombstones", Jv.arr (gts.map Jv.str))] "version" = Jv.str "1.0.0" from rfl]
  rw [show getF [("version", Jv.str "1.0.0"),
      ("repos", Jv.arr (grepos.map (fun e => Jv.obj (entryFieldsJson e)))),
      ("tombstones", Jv.arr (gts.map Jv.str))] "repos" =
      Jv.arr (grepos.map (fun e => Jv.obj (entryFieldsJson e))) from rfl]
  rw [show getF [("version", Jv.str "1.0.0"),
      ("repos", Jv.arr (grepos.map (fun e => Jv.obj (entryFieldsJson e)))),
      ("tombstones", Jv.arr (gts.map Jv.str))] "tombstones" =
      Jv.arr (gts.map Jv.str) from rfl]
  dsimp only
  rw [normalizeEntries_entryFieldsJson grepos 0 hent, exceptBindOk]
  dsimp only
  rw [filterMapTombMap gts htlen]
  simp only [List.length_map, ne_eq, not_true_eq_false, ite_false, if_neg]
  rw [hfilter]
  simp only [ne_eq, not_true_eq_false, ite_false, if_neg]
  rw [dedupFirst_eq_self gts htnd]
  simp [objKeys, pure, Except.pure]

lemma requireString_ok (v : Jv) (label s : String)
    (h : requireString v label = Except.ok s) : 0 < s.length := by
  unfold requireString at h
  rcases v with _ | _ | b | n | sv | xs | f <;> dsimp only at h <;>
    try exact Except.noConfusion h
  by_cases hl : sv.length = 0
  · rw [if_pos hl] at h
    exact Except.noConfusion h
  · rw [if_neg hl] at h
    cases h
    exact Nat.pos_of_ne_zero hl

lemma normalizeRegistryEntry_wf (fields : List (String × Jv)) (i : Nat)
    (e : RegistryEntry) (c : Bool) (iss : List String)
    (h : normalizeRegistryEntry fields i = Except.ok (e, c, iss)) : entryWf e := by
  unfold normalizeRegistryEntry at h
  rcases h1 : requireString (getF fields "id") "id" with m | id <;> rw [h1] at h
  · rw [exceptBindErr] at h
    exact Except.noConfusion h
  rw [exceptBindOk] at h
  rcases h2 : requireString (getF fields "host") "host" with m | host <;> rw [h2] at h
  · rw [exceptBindErr] at h
    exact Except.noConfusion h
  rw [exceptBindOk] at h
  rcases h3 : requireString (getF fields "owner") "owner" with m | owner <;> rw [h3] at h
  · rw [exceptBindErr] at h
    exact Except.noConfusion h
  rw [exceptBindOk] at h
  rcases h4 : requireString (getF fields "repo") "repo" with m | repo <;> rw [h4] at h
  · rw [exceptBindErr] at h
    exact Except.noConfusion h
  rw [exceptBindOk] at h
  rcases h5 : requireString (getF fields "cloneUrl") "cloneUrl" with m | cloneUrl <;>
    rw [h5] at h
  · rw [exceptBindErr] at h
    exact Except.noConfusion h
  rw [exceptBindOk] at h
  simp only [pure, Except.pure, Except.ok.injEq, Prod.mk.injEq] at h
  obtain ⟨he, -, -⟩ := h
  subst he
  refine ⟨requireString_ok _ _ _ h1, requireString_ok _ _ _ h2,
    requireString_ok _ _ _ h3, requireString_ok _ _ _ h4,
    requireString_ok _ _ _ h5, ?_, ?_, ?_, ?_, ?_⟩
  · rcases hgf : getF fields "defaultRemoteName" with _ | _ | b | n | sv | xs | f <;>
      dsimp only <;> try decide
    by_cases hl : sv.length > 0
    · rw [if_pos hl]
      exact hl
    · rw [if_neg hl]
      decide
  · rcases hgf : getF fields "updateStrategy" with _ | _ | b | n | sv | xs | f <;>
      dsimp only <;> try exact Or.inr rfl
    by_cases hv : sv = "ff-only" ∨ sv = "hard-reset"
    · rw [if_pos hv]
      exact hv
    · rw [if_neg hv]
      exact Or.inr rfl
  · rcases hgf : getF fields "submodules" with _ | _ | b | n | sv | xs | f <;>
      dsimp only <;> try exact Or.inr rfl
    by_cases hv : sv = "recursive" ∨ sv = "none"
    · rw [if_pos hv]
      exact hv
    · rw [if_neg hv]
      exact Or.inr rfl
  · rcases hgf : getF fields "lfs" with _ | _ | b | n | sv | xs | f <;>
      dsimp only <;> try exact Or.inl rfl
    by_cases hv : sv = "auto" ∨ sv = "always" ∨ sv = "never"
    · rw [if_pos hv]
      exact hv
    · rw [if_neg hv]
      exact Or.inl rfl
  · rcases hgf : getF fields "tags" with _ | _ | b | n | sv | xs | f <;>
      dsimp only <;> try exact fun l hl => Option.noConfusion hl
    by_cases hl : (xs.filterMap (fun v => match v with
        | Jv.str s => some s
        | _ => none)).length > 0
    · rw [if_pos hl]
      intro l hll
      have hsome : some (xs.filterMap (fun v => match v with
          | Jv.str s => some s
          | _ => none)) = some l := by
        split at hll <;> exact hll
      cases hsome
      exact hl
    · rw [if_neg hl]
      intro l hll
      have hnone : (none : Option (List String)) = some l := by
        split at hll <;> exact hll
      exact Option.noConfusion hnone

lemma normalizeEntries_wf :
    ∀ (vs : List Jv) (i : Nat) (repos : List RegistryEntry) (c : Bool)
      (iss : List String),
      normalizeEntries vs i = Except.ok (repos, c, iss) → ∀ e ∈ repos, entryWf e
  | [], i, repos, c, iss, h => by
    unfold normalizeEntries at h
    simp only [Except.ok.injEq, Prod.mk.injEq] at h
    obtain ⟨hr, -, -⟩ := h
    subst hr
    intro e he
    exact absurd he (List.not_mem_nil e)
  | v :: rest, i, repos, c, iss, h => by
    unfold normalizeEntries at h
    rcases v with _ | _ | b | n | sv | xs | f <;> try exact Except.noConfusion h
    dsimp only at h
    rcases hne : normalizeRegistryEntry f i with m | ⟨e1, c1, iss1⟩ <;> rw [hne] at h
    · rw [exceptBindErr] at h
      exact Except.noConfusion h
    rw [exceptBindOk] at h
    dsimp only at h
    rcases hrest : normalizeEntries rest (i + 1) with m | ⟨es, c2, iss2⟩ <;>
      rw [hrest] at h
    · rw [exceptBindErr] at h
      exact Except.noConfusion h
    rw [exceptBindOk] at h
    simp only [pure, Except.pure, Except.ok.injEq, Prod.mk.injEq] at h
    obtain ⟨hr, -, -⟩ := h
    subst hr
    intro e he
    rcases List.mem_cons.1 he with rfl | he2
    · exact normalizeRegistryEntry_wf f i e c1 iss1 hne
    · exact normalizeEntries_wf rest (i + 1) es c2 iss2 hrest e he2

lemma normalizeRegistry_wf (raw : Jv) (res : NormResult Registry)
    (h : normalizeRegistry raw = Except.ok res) : registryWf res.data := by
  rcases raw with _ | _ | b | n | s | xs | fields <;>
    simp [normalizeRegistry] at h
  rcases hv : getF fields "version" with _ | _ | b | n | sv | xs2 | f2 <;>
    rw [hv] at h
  case' str =>
    rcases hr : getF fields "repos" with _ | _ | b | n | sr | repoVals | f3 <;>
      rw [hr] at h
    case' arr =>
      dsimp only at h
      rcases hne : normalizeEntries repoVals 0 with msg | ⟨repos, ch, iss⟩ <;>
        rw [hne] at h
      · rw [exceptMapErr] at h
        exact Except.noConfusion h
      · rw [exceptMapOk] at h
        cases h
        refine ⟨rfl, normalizeEntries_wf repoVals 0 repos ch iss hne, ?_,
          dedupFirst_nodup _, ?_⟩
        · intro t ht
          have h2 := List.mem_of_mem_filter (dedupFirst_mem _ _ ht)
          rcases hts : getF fields "tombstones" with _ | _ | b | n | st | ts | f4 <;>
            rw [hts] at h2 <;> dsimp only at h2 <;>
            try exact absurd h2 (List.not_mem_nil t)
          have h3 : t ∈ ts.filterMap (fun v => match v with
              | Jv.str s => if s.length > 0 then some s else none
              | _ => none) := by
            split at h2 <;> exact h2
          obtain ⟨v, hvmem, hveq⟩ := List.mem_filterMap.1 h3
          rcases v with _ | _ | b | n | sv2 | xs3 | f5 <;>
            simp only at hveq <;> try exact Option.noConfusion hveq
          by_cases hlen : sv2.length > 0
          · rw [if_pos hlen] at hveq
            cases hveq
            exact hlen
          · rw [if_neg hlen] at hveq
            exact Option.noConfusion hveq
        · intro t ht e he heq
          have h2 := dedupFirst_mem _ _ ht
          rw [List.mem_filter] at h2
          have h3 := of_decide_eq_true h2.2
          exact h3 e he heq
    all_goals simp at h
  all_goals simp at h

/-- Well-formedness of a normalized local-state document. -/
def localWf (st : LocalState) : Prop :=
  st.version = "1.0.0" ∧ (st.repos.map Prod.fst).Nodup

lemma objUpsert_fresh (m : List (String × Option String)) (k : String)
    (v : Option String) (hk : ∀ q ∈ m, q.1 ≠ k) :
    objUpsert m k v = m ++ [(k, v)] := by
  unfold objUpsert
  rw [if_neg]
  intro hc
  simp only [List.any_eq_true, decide_eq_true_eq] at hc
  obtain ⟨q, hq, hqk⟩ := hc
  exact hk q hq hqk

lemma localFold :
    ∀ (l : List (String × Option String))
      (acc : List (String × Option String) × Bool × List String),
      (∀ p ∈ l, ∀ q ∈ acc.1, q.1 ≠ p.1) → (l.map Prod.fst).Nodup →
      List.foldl localRepoStep acc
        (l.map (fun p => (p.1, Jv.obj [("lastSyncedAt", optStrJv p.2)]))) =
        (acc.1 ++ l, acc.2.1, acc.2.2)
  | [], acc, _, _ => by simp
  | p :: rest, acc, hdisj, hnd => by
    rw [List.map_cons, List.foldl_cons]
    have hstep : localRepoStep acc (p.1, Jv.obj [("lastSyncedAt", optStrJv p.2)]) =
        (acc.1 ++ [p], acc.2.1, acc.2.2) := by
      unfold localRepoStep
      dsimp only
      rcases p with ⟨k, v⟩
      rcases v with _ | sv <;>
        simp [getF, List.find?, optStrJv,
          objUpsert_fresh acc.1 k _ (fun q hq => hdisj (k, _) (List.mem_cons_self _ _) q hq)]
    rw [hstep]
    have hdisj2 : ∀ q ∈ rest, ∀ r ∈ acc.1 ++ [p], r.1 ≠ q.1 := by
      intro q hq r hr
      rcases List.mem_append.1 hr with hr1 | hr2
      · exact hdisj q (List.mem_cons_of_mem _ hq) r hr1
      · rcases List.mem_singleton.1 hr2 with rfl
        intro hpq
        have hndc := List.nodup_cons.1 (by rw [List.map_cons] at hnd; exact hnd)
        exact hndc.1 (by
          rw [hpq]
          exact List.mem_map.2 ⟨q, hq, rfl⟩)
    have hnd2 : (rest.map Prod.fst).Nodup :=
      (List.nodup_cons.1 (by rw [List.map_cons] at hnd; exact hnd)).2
    rw [localFold rest (acc.1 ++ [p], acc.2.1, acc.2.2) hdisj2 hnd2]
    simp

lemma normalizeLocalState_canonical (st : LocalState) (hwf : localWf st) :
    normalizeLocalState (localToJv st) = Except.ok ⟨st, false, []⟩ := by
  obtain ⟨hv, hnd⟩ := hwf
  obtain ⟨sv, lsr, reposl⟩ := st
  dsimp only at hv hnd
  subst hv
  unfold normalizeLocalState localToJv
  dsimp only
  rw [show getF [("version", Jv.str "1.0.0"), ("lastSyncRun", optStrJv lsr),
      ("repos", Jv.obj (reposl.map (fun p =>
        (p.1, Jv.obj [("lastSyncedAt", optStrJv p.2)]))))] "version" =
      Jv.str "1.0.0" from rfl]
  rw [show getF [("version", Jv.str "1.0.0"), ("lastSyncRun", optStrJv lsr),
      ("repos", Jv.obj (reposl.map (fun p =>
        (p.1, Jv.obj [("lastSyncedAt", optStrJv p.2)]))))] "repos" =
      Jv.obj (reposl.map (fun p =>
        (p.1, Jv.obj [("lastSyncedAt", optStrJv p.2)]))) from rfl]
  dsimp only
  rw [localFold reposl ([], false, []) (fun p _ q hq => absurd hq (List.not_mem_nil q))
    hnd]
  rcases lsr with _ | s <;>
    simp [getF, List.find?, optStrJv, objKeys, LOCAL_STATE_KEYS, pure, Except.pure]

lemma localRepoStep_keys_nodup (acc : List (String × Option String) × Bool × List String)
    (p : String × Jv) (h : (acc.1.map Prod.fst).Nodup) :
    (((localRepoStep acc p).1.map Prod.fst)).Nodup := by
  unfold localRepoStep
  rcases p with ⟨k, v⟩
  rcases v with _ | _ | b | n | sv | xs | f <;> try exact h
  dsimp only
  unfold objUpsert
  by_cases hc : acc.1.any (fun q => q.1 = k) = true
  · rw [if_pos hc]
    have hmap : (acc.1.map (fun q => if q.1 = k then (k, (match getF f "lastSyncedAt" with
        | Jv.str s => (some s, false, [])
        | Jv.undef => (none, false, ([] : List String))
        | _ => (none, true, ["local.json dropped invalid lastSyncedAt for \"" ++ k ++ "\""])).1)
          else q)).map Prod.fst = acc.1.map Prod.fst := by
      rw [List.map_map]
      apply List.map_congr_left
      intro q hq
      by_cases hqk : q.1 = k
      · simp [hqk]
      · simp [hqk]
    rw [hmap]
    exact h
  · rw [if_neg hc]
    rw [List.map_append]
    simp only [List.map_cons, List.map_nil]
    rw [List.nodup_append]
    refine ⟨h, List.nodup_singleton _, ?_⟩
    intro a ha hb
    rcases List.mem_singleton.1 hb with rfl
    simp only [List.any_eq_true, decide_eq_true_eq] at hc
    obtain ⟨q, hq, hqeq⟩ := List.mem_map.1 ha
    exact hc ⟨q, hq, hqeq⟩

lemma localFold_keys_nodup :
    ∀ (ps : List (String × Jv)) (acc : List (String × Option String) × Bool × List String),
      (acc.1.map Prod.fst).Nodup →
      (((List.foldl localRepoStep acc ps).1.map Prod.fst)).Nodup
  | [], _, h => h
  | p :: rest, acc, h =>
    localFold_keys_nodup rest (localRepoStep acc p) (localRepoStep_keys_nodup acc p h)

lemma normalizeLocalState_wf (raw : Jv) (res : NormResult LocalState)
    (h : normalizeLocalState raw = Except.ok res) : localWf res.data := by
  rcases raw with _ | _ | b | n | s | xs | fields <;>
    simp [normalizeLocalState] at h
  rcases hv : getF fields "version" with _ | _ | b | n | sv | xs2 | f2 <;>
    rw [hv] at h
  case' str =>
    rcases hr : getF fields "repos" with _ | _ | b | n | sr | arr2 | repoFields <;>
      rw [hr] at h
    case' obj =>
      dsimp only at h
      cases h
      exact ⟨rfl, localFold_keys_nodup repoFields ([], false, []) List.nodup_nil⟩
    all_goals simp at h
  all_goals simp at h

/-- C6: both normalization passes are idempotent — normalizing the value
produced by a successful normalization returns it unchanged, with
`changed:false` and no further issues. -/
theorem normalize_idempotent :
    (∀ (raw : Jv) (res : NormResult Registry), normalizeRegistry raw = Except.ok res →
      normalizeRegistry (registryToJv res.data) =
        Except.ok { data := res.data, changed := false, issues := [] }) ∧
    (∀ (raw : Jv) (res : NormResult LocalState), normalizeLocalState raw = Except.ok res →
      normalizeLocalState (localToJv res.data) =
        Except.ok { data := res.data, changed := false, issues := [] }) :=
  ⟨fun raw res h =>
      normalizeRegistry_canonical res.data (normalizeRegistry_wf raw res h),
   fun raw res h =>
      normalizeLocalState_canonical res.data (normalizeLocalState_wf raw res h)⟩

/-- A concrete local-state document. -/
def sampleLocal : LocalState :=
  { version := "1.0.0", lastSyncRun := none,
    repos := [("github.com:own/rep", some "2024-01-01T00:00:00Z")] }

/-- Witness for C6 at concrete documents. -/
theorem normalize_idempotent_witness :
    normalizeRegistry (registryToJv sampleRegistry) =
      Except.ok { data := sampleRegistry, changed := false, issues := [] } ∧
    normalizeLocalState (localToJv sampleLocal) =
      Except.ok { data := sampleLocal, changed := false, issues := [] } := by
  have h1 : normalizeRegistry (registryToJv sampleRegistry) =
      Except.ok { data := sampleRegistry, changed := false, issues := [] } :=
    normalizeRegistry_canonical sampleRegistry (by
      refine ⟨rfl, ?_, by decide, by decide, by decide⟩
      intro e he
      rcases List.mem_singleton.1 he with rfl
      exact ⟨by decide, by decide, by decide, by decide, by decide, by decide,
        by decide, by decide, by decide, fun l hl => Option.noConfusion hl⟩)
  have h2 : normalizeLocalState (localToJv sampleLocal) =
      Except.ok { data := sampleLocal, changed := false, issues := [] } :=
    normalizeLocalState_canonical sampleLocal ⟨rfl, by decide⟩
  exact ⟨normalize_idempotent.1 (registryToJv sampleRegistry)
      { data := sampleRegistry, changed := false, issues := [] } h1,
    normalize_idempotent.2 (localToJv sampleLocal)
      { data := sampleLocal, changed := false, issues := [] } h2⟩

/-- `writeRegistry`: re-normalize the in-memory document, then serialize
it (the serialized form drops keys holding `undefined`); the temp-file
plus atomic rename of the source guarantees a reader sees either the old
or this whole new document, never a prefix — modelled by the write
producing one complete document value. -/
def writeRegistryDoc (x : Registry) : Except String Jv :=
  (normalizeRegistry (registryToJv x)).map (fun res => registryToJsonDoc res.data)

/-- `readRegistry` on an existing document: parse and normalize. -/
def readRegistryDoc (doc : Jv) : Except String Registry :=
  (normalizeRegistry doc).map (fun res => res.data)

/-- C5: for every well-formed registry value `x` (one that normalization
accepts), writing `x` and then reading the document back yields exactly
`normalize(x)`. -/
theorem registry_roundtrip (x : Registry) (doc : Jv) (res : NormResult Registry)
    (hn : normalizeRegistry (registryToJv x) = Except.ok res)
    (hw : writeRegistryDoc x = Except.ok doc) :
    readRegistryDoc doc = Except.ok res.data := by
  unfold writeRegistryDoc at hw
  rw [hn, exceptMMapOk] at hw
  cases hw
  unfold readRegistryDoc
  rw [normalizeRegistry_canonicalJson res.data (normalizeRegistry_wf _ _ hn),
    exceptMMapOk]

/-- Witness for C5 at a concrete registry. -/
theorem registry_roundtrip_witness :
    readRegistryDoc (registryToJsonDoc sampleRegistry) = Except.ok sampleRegistry := by
  have h1 : normalizeRegistry (registryToJv sampleRegistry) =
      Except.ok { data := sampleRegistry, changed := false, issues := [] } :=
    normalizeRegistry_canonical sampleRegistry (by
      refine ⟨rfl, ?_, by decide, by decide, by decide⟩
      intro e he
      rcases List.mem_singleton.1 he with rfl
      exact ⟨by decide, by decide, by decide, by decide, by decide, by decide,
        by decide, by decide, by decide, fun l hl => Option.noConfusion hl⟩)
  have h2 : writeRegistryDoc sampleRegistry =
      Except.ok (registryToJsonDoc sampleRegistry) := by
    unfold writeRegistryDoc
    rw [h1, exceptMMapOk]
  exact registry_roundtrip sampleRegistry (registryToJsonDoc sampleRegistry)
    { data := sampleRegistry, changed := false, issues := [] } h1 h2

/-! ## C7 — identity resolver -/

/-- C7 counterexample: the claim quantifies over every SSH-style
`user@host:owner/name[.git]` location, but `parseGitUrl` only recognizes
the literal user `git` and throws on any other user. -/
theorem parseGitUrl_counterexample :
    (parseGitUrl "alice@github.com:owner/repo.git").toOption = none := by
  rfl

/-- A clean path segment: non-empty, free of '/', ':' and whitespace. -/
def segOk (l : List Char) : Prop :=
  l ≠ [] ∧ ∀ c ∈ l, c ≠ '/' ∧ c ≠ ':' ∧ isJsWs c = false

lemma jsTrim_eq_self (l : List Char) (h : ∀ c ∈ l, isJsWs c = false) :
    jsTrim l = l := by
  have hdrop : ∀ m : List Char, (∀ c ∈ m, isJsWs c = false) →
      m.dropWhile isJsWs = m := by
    intro m hm
    cases m with
    | nil => rfl
    | cons a t =>
      rw [List.dropWhile_cons_of_neg]
      rw [hm a (List.mem_cons_self _ _)]
      exact Bool.false_ne_true
  unfold jsTrim
  rw [hdrop l h, hdrop l.reverse (fun c hc => h c (List.mem_reverse.1 hc)),
    List.reverse_reverse]

lemma uiMatchAt_cons_ne (c : Char) (l : List Char) (h : c ≠ '/') :
    uiMatchAt (c :: l) = false := by
  unfold uiMatchAt
  split
  · rename_i r heq
    cases heq
    exact absurd rfl h
  · rfl

lemma afterCheck_false (l : List Char) :
    l ≠ [] → l.head? ≠ some '/' →
    (match l with
     | [] => true
     | '/' :: _ => true
     | _ => false) = false := by
  split
  · intro hne _
    exact absurd rfl hne
  · intro _ hh
    exact absurd rfl hh
  · intro _ _
    rfl

lemma stripUi_append_noSlash (xs : List Char) (rest : List Char)
    (h : ∀ c ∈ xs, c ≠ '/') : stripUi (xs ++ rest) = xs ++ stripUi rest := by
  induction xs with
  | nil => rfl
  | cons a t ih =>
    rw [List.cons_append, stripUi,
      uiMatchAt_cons_ne a _ (h a (List.mem_cons_self _ _))]
    simp only [Bool.false_eq_true, if_false]
    rw [ih (fun c hc => h c (List.mem_cons_of_mem _ hc))]
    rfl

lemma ui_words_chars : ∀ w ∈ UI_WORDS, w ≠ [] ∧ '/' ∉ w ∧ '.' ∉ w := by
  decide

lemma uiMatchAt_seg_false (X t : List Char)
    (hns : ∀ c ∈ X, c ≠ '/') (hX : X ∉ UI_WORDS)
    (ht : t = [] ∨ ∃ c r, t = c :: r ∧ ∀ w ∈ UI_WORDS, c ∉ w) :
    uiMatchAt ('/' :: (X ++ t)) = false := by
  show UI_WORDS.any (fun w =>
      w.isPrefixOf (X ++ t) &&
        (match (X ++ t).drop w.length with
         | [] => true
         | '/' :: _ => true
         | _ => false)) = false
  rw [List.any_eq_false]
  intro w hw
  by_cases hp : w.isPrefixOf (X ++ t) = true
  · rw [Bool.not_eq_true, hp, Bool.true_and]
    have hpre : w <+: X ++ t := List.isPrefixOf_iff_prefix.1 hp
    have hXpre : X <+: X ++ t := List.prefix_append X t
    rcases List.prefix_or_prefix_of_prefix hpre hXpre with h1 | h2
    · rcases h1 with ⟨x2, hx2⟩
      rcases x2 with _ | ⟨c, x2t⟩
      · rw [List.append_nil] at hx2
        exact absurd (hx2 ▸ hw) hX
      · have hdrop : (X ++ t).drop w.length = c :: (x2t ++ t) := by
          rw [← hx2, List.append_assoc, List.drop_left, List.cons_append]
        rw [hdrop]
        apply afterCheck_false
        · exact List.cons_ne_nil _ _
        · intro hc
          simp only [List.head?_cons, Option.some.injEq] at hc
          have hcX : c ∈ X := by
            rw [← hx2]
            exact List.mem_append_right _ (List.mem_cons_self _ _)
          exact hns c hcX hc
    · rcases h2 with ⟨w2, hw2⟩
      rcases w2 with _ | ⟨c, w2t⟩
      · rw [List.append_nil] at hw2
        exact absurd (hw2 ▸ hX) (fun hn => hn hw)
      · have hsub : (c :: w2t) <+: t := by
          have := hpre
          rw [← hw2, List.prefix_append_right_inj] at this
          exact this
        rcases ht with rfl | ⟨tc, tr, rfl, htc⟩
        · rcases hsub with ⟨z, hz⟩
          exact absurd hz (by simp)
        · have hc : c = tc := by
            rcases hsub with ⟨z, hz⟩
            exact (List.cons.injEq _ _ _ _ ▸ hz).1
          subst hc
          have hcw : c ∈ w := by
            rw [← hw2]
            exact List.mem_append_right _ (List.mem_cons_self _ _)
          exact absurd hcw (htc w hw)
  · simp only [Bool.not_eq_true] at hp
    rw [Bool.not_eq_true, hp, Bool.false_and]

lemma stripUi_noSlash (l : List Char) (h : ∀ c ∈ l, c ≠ '/') : stripUi l = l := by
  have h2 := stripUi_append_noSlash l [] h
  have h3 : stripUi ([] : List Char) = [] := rfl
  rw [h3, List.append_nil] at h2
  exact h2

lemma uiMatchAt_word_true (w : List Char) (hw : w ∈ UI_WORDS) (t : List Char)
    (ht : t = [] ∨ ∃ r, t = '/' :: r) :
    uiMatchAt ('/' :: (w ++ t)) = true := by
  show UI_WORDS.any (fun x =>
      x.isPrefixOf (w ++ t) &&
        (match (w ++ t).drop x.length with
         | [] => true
         | '/' :: _ => true
         | _ => false)) = true
  rw [List.any_eq_true]
  refine ⟨w, hw, ?_⟩
  rw [List.isPrefixOf_iff_prefix.2 (List.prefix_append w t), Bool.true_and,
    List.drop_left]
  rcases ht with rfl | ⟨r, rfl⟩
  · rfl
  · rfl

lemma strip_last_seg (N R : List Char) (hN : ∀ c ∈ N, c ≠ '/')
    (hNw : N ∉ UI_WORDS) (hR : R = [] ∨ R = ".git".toList) :
    stripUi ('/' :: (N ++ R)) = '/' :: (N ++ R) := by
  rw [stripUi]
  rw [uiMatchAt_seg_false N R hN hNw (by
    rcases hR with rfl | rfl
    · exact Or.inl rfl
    · exact Or.inr ⟨'.', "git".toList, rfl, by decide⟩)]
  simp only [Bool.false_eq_true, if_false]
  rw [stripUi_append_noSlash N R hN, stripUi_noSlash R (by
    rcases hR with rfl | rfl
    · intro c hc
      exact absurd hc (List.not_mem_nil c)
    · decide)]

lemma strip_mid_seg (X : List Char) (rest : List Char) (hX : ∀ c ∈ X, c ≠ '/')
    (hXw : X ∉ UI_WORDS) :
    stripUi ('/' :: (X ++ '/' :: rest)) =
      '/' :: (X ++ stripUi ('/' :: rest)) := by
  rw [stripUi]
  rw [uiMatchAt_seg_false X ('/' :: rest) hX hXw
    (Or.inr ⟨'/', rest, rfl, by decide⟩)]
  simp only [Bool.false_eq_true, if_false]
  rw [stripUi_append_noSlash X ('/' :: rest) hX]

lemma strip_ui_tail (w tail : List Char) (hw : w ∈ UI_WORDS)
    (ht : tail = [] ∨ ∃ r, tail = '/' :: r) :
    stripUi ('/' :: (w ++ tail)) = [] := by
  rw [stripUi, uiMatchAt_word_true w hw tail ht]
  rfl

lemma takeWhile_ne_append (c : Char) (xs ys : List Char) (h : ∀ a ∈ xs, a ≠ c) :
    (xs ++ c :: ys).takeWhile (fun a => decide (a ≠ c)) = xs := by
  induction xs with
  | nil =>
    rw [List.nil_append, List.takeWhile_cons]
    simp
  | cons a t ih =>
    rw [List.cons_append, List.takeWhile_cons,
      show decide (a ≠ c) = true by simpa using h a (List.mem_cons_self _ _),
      if_pos rfl, ih (fun x hx => h x (List.mem_cons_of_mem _ hx))]

lemma sshMatch_some (H O R : List Char) (hHne : H ≠ []) (hHc : ∀ a ∈ H, a ≠ ':')
    (hOne : O ≠ []) (hOs : ∀ a ∈ O, a ≠ '/') :
    sshMatch ('g' :: 'i' :: 't' :: '@' :: (H ++ ':' :: (O ++ '/' :: R))) =
      (repoGroup R).map (fun repo => (H, O, repo)) := by
  unfold sshMatch
  dsimp only
  rw [takeWhile_ne_append ':' H (O ++ '/' :: R) hHc, List.drop_left]
  dsimp only
  rw [if_neg hHne]
  rw [takeWhile_ne_append '/' O R hOs, List.drop_left]
  dsimp only
  rw [if_neg hOne]
  simp

lemma httpsMatchTail_some (H O R : List Char) (hHne : H ≠ [])
    (hHs : ∀ a ∈ H, a ≠ '/') (hOne : O ≠ []) (hOs : ∀ a ∈ O, a ≠ '/') :
    httpsMatchTail (H ++ '/' :: (O ++ '/' :: R)) =
      (repoGroup R).map (fun repo => (H, O, repo)) := by
  unfold httpsMatchTail
  dsimp only
  rw [takeWhile_ne_append '/' H (O ++ '/' :: R) hHs, List.drop_left]
  dsimp only
  rw [if_neg hHne]
  rw [takeWhile_ne_append '/' O R hOs, List.drop_left]
  dsimp only
  rw [if_neg hOne]
  simp

lemma repoGroup_plain (R : List Char) (hne : R ≠ [])
    (hs : (".git".toList).isSuffixOf R = false) : repoGroup R = some R := by
  unfold repoGroup
  rw [if_neg hne, if_neg (by
    rintro ⟨hsuf, -⟩
    rw [hs] at hsuf
    exact Bool.false_ne_true hsuf)]

lemma repoGroup_git (N : List Char) (hne : N ≠ []) :
    repoGroup (N ++ ".git".toList) = some N := by
  unfold repoGroup
  have hsuf : (".git".toList).isSuffixOf (N ++ ".git".toList) = true := by
    rw [List.isSuffixOf_iff_suffix]
    exact List.suffix_append N _
  have hlen : (N ++ ".git".toList).length ≥ 5 := by
    rw [List.length_append, show (".git".toList).length = 4 from rfl]
    have hp : 0 < N.length := List.length_pos.2 hne
    omega
  rw [if_neg (by simp [hne]), if_pos ⟨hsuf, hlen⟩]
  rw [List.length_append, show (".git".toList).length = 4 from rfl,
    Nat.add_sub_cancel, List.take_left]

lemma segOk_noWs (l : List Char) (h : segOk l) : ∀ c ∈ l, isJsWs c = false :=
  fun c hc => (h.2 c hc).2.2

lemma segOk_noSlash (l : List Char) (h : segOk l) : ∀ c ∈ l, c ≠ '/' :=
  fun c hc => (h.2 c hc).1

lemma segOk_noColon (l : List Char) (h : segOk l) : ∀ c ∈ l, c ≠ ':' :=
  fun c hc => (h.2 c hc).2.1

lemma stringMkToList (s : String) : String.mk s.toList = s := rfl

lemma parse_ssh_plain (h o n : String) (hh : segOk h.toList) (ho : segOk o.toList)
    (hn : segOk n.toList) (hnw : n.toList ∉ UI_WORDS)
    (hng : (".git".toList).isSuffixOf n.toList = false) :
    (parseGitUrl ("git@" ++ h ++ ":" ++ o ++ "/" ++ n)).map generateRepoId =
      Except.ok (h ++ ":" ++ o ++ "/" ++ n) := by
  have hlist : ("git@" ++ h ++ ":" ++ o ++ "/" ++ n).toList =
      'g' :: 'i' :: 't' :: '@' :: (h.toList ++ ':' :: (o.toList ++ '/' :: n.toList)) := by
    simp only [String.toList, String.data_append]
    simp [List.append_assoc]
  have hws : ∀ c ∈ ('g' :: 'i' :: 't' :: '@' ::
      (h.toList ++ ':' :: (o.toList ++ '/' :: n.toList))), isJsWs c = false := by
    intro c hc
    simp only [List.mem_cons, List.mem_append] at hc
    rcases hc with rfl | rfl | rfl | rfl | hc | rfl | hc | rfl | hc
    · decide
    · decide
    · decide
    · decide
    · exact segOk_noWs _ hh c hc
    · decide
    · exact segOk_noWs _ ho c hc
    · decide
    · exact segOk_noWs _ hn c hc
  have hx0 : ∀ c ∈ ('g' :: 'i' :: 't' :: '@' :: (h.toList ++ ':' :: o.toList)),
      c ≠ '/' := by
    intro c hc
    simp only [List.mem_cons, List.mem_append] at hc
    rcases hc with rfl | rfl | rfl | rfl | hc | rfl | hc
    · decide
    · decide
    · decide
    · decide
    · exact segOk_noSlash _ hh c hc
    · decide
    · exact segOk_noSlash _ ho c hc
  have hassoc : ('g' :: 'i' :: 't' :: '@' :: (h.toList ++ ':' :: o.toList)) ++
      ('/' :: n.toList) =
      'g' :: 'i' :: 't' :: '@' :: (h.toList ++ ':' :: (o.toList ++ '/' :: n.toList)) := by
    simp [List.append_assoc]
  have hlast : stripUi ('/' :: n.toList) = '/' :: n.toList := by
    have h2 := strip_last_seg n.toList [] (segOk_noSlash _ hn) hnw (Or.inl rfl)
    simpa using h2
  have hstrip : stripUi ('g' :: 'i' :: 't' :: '@' ::
      (h.toList ++ ':' :: (o.toList ++ '/' :: n.toList))) =
      'g' :: 'i' :: 't' :: '@' :: (h.toList ++ ':' :: (o.toList ++ '/' :: n.toList)) := by
    rw [← hassoc, stripUi_append_noSlash _ _ hx0, hlast]
  unfold parseGitUrl
  rw [hlist, jsTrim_eq_self _ hws, hstrip]
  dsimp only
  rw [sshMatch_some h.toList o.toList n.toList hh.1 (segOk_noColon _ hh) ho.1
    (segOk_noSlash _ ho)]
  rw [repoGroup_plain n.toList hn.1 hng]
  rfl

lemma noWs_append (a b : List Char) (ha : ∀ c ∈ a, isJsWs c = false)
    (hb : ∀ c ∈ b, isJsWs c = false) : ∀ c ∈ a ++ b, isJsWs c = false := by
  intro c hc
  rcases List.mem_append.1 hc with h | h
  · exact ha c h
  · exact hb c h

lemma noWs_cons (a : Char) (l : List Char) (ha : isJsWs a = false)
    (hl : ∀ c ∈ l, isJsWs c = false) : ∀ c ∈ a :: l, isJsWs c = false := by
  intro c hc
  rcases List.mem_cons.1 hc with rfl | h
  · exact ha
  · exact hl c h

lemma noSlash_append (a b : List Char) (ha : ∀ c ∈ a, c ≠ '/')
    (hb : ∀ c ∈ b, c ≠ '/') : ∀ c ∈ a ++ b, c ≠ '/' := by
  intro c hc
  rcases List.mem_append.1 hc with h | h
  · exact ha c h
  · exact hb c h

lemma noSlash_cons (a : Char) (l : List Char) (ha : a ≠ '/')
    (hl : ∀ c ∈ l, c ≠ '/') : ∀ c ∈ a :: l, c ≠ '/' := by
  intro c hc
  rcases List.mem_cons.1 hc with rfl | h
  · exact ha
  · exact hl c h

lemma parse_ssh_git (h o n : String) (hh : segOk h.toList) (ho : segOk o.toList)
    (hn : segOk n.toList) (hnw : n.toList ∉ UI_WORDS) :
    (parseGitUrl ("git@" ++ h ++ ":" ++ o ++ "/" ++ n ++ ".git")).map generateRepoId =
      Except.ok (h ++ ":" ++ o ++ "/" ++ n) := by
  have hlist : ("git@" ++ h ++ ":" ++ o ++ "/" ++ n ++ ".git").toList =
      'g' :: 'i' :: 't' :: '@' ::
        (h.toList ++ ':' :: (o.toList ++ '/' :: (n.toList ++ ".git".toList))) := by
    simp only [String.toList, String.data_append]
    simp [List.append_assoc]
  have hws : ∀ c ∈ 'g' :: 'i' :: 't' :: '@' ::
      (h.toList ++ ':' :: (o.toList ++ '/' :: (n.toList ++ ".git".toList))),
      isJsWs c = false :=
    noWs_cons _ _ (by decide) (noWs_cons _ _ (by decide) (noWs_cons _ _ (by decide)
      (noWs_cons _ _ (by decide) (noWs_append _ _ (segOk_noWs _ hh)
        (noWs_cons _ _ (by decide) (noWs_append _ _ (segOk_noWs _ ho)
          (noWs_cons _ _ (by decide) (noWs_append _ _ (segOk_noWs _ hn)
            (by decide)))))))))
  have hx0 : ∀ c ∈ ('g' :: 'i' :: 't' :: '@' :: (h.toList ++ ':' :: o.toList)),
      c ≠ '/' :=
    noSlash_cons _ _ (by decide) (noSlash_cons _ _ (by decide)
      (noSlash_cons _ _ (by decide) (noSlash_cons _ _ (by decide)
        (noSlash_append _ _ (segOk_noSlash _ hh)
          (noSlash_cons _ _ (by decide) (segOk_noSlash _ ho))))))
  have hassoc : ('g' :: 'i' :: 't' :: '@' :: (h.toList ++ ':' :: o.toList)) ++
      ('/' :: (n.toList ++ ".git".toList)) =
      'g' :: 'i' :: 't' :: '@' ::
        (h.toList ++ ':' :: (o.toList ++ '/' :: (n.toList ++ ".git".toList))) := by
    simp [List.append_assoc]
  have hstrip : stripUi ('g' :: 'i' :: 't' :: '@' ::
      (h.toList ++ ':' :: (o.toList ++ '/' :: (n.toList ++ ".git".toList)))) =
      'g' :: 'i' :: 't' :: '@' ::
        (h.toList ++ ':' :: (o.toList ++ '/' :: (n.toList ++ ".git".toList))) := by
    rw [← hassoc, stripUi_append_noSlash _ _ hx0,
      strip_last_seg n.toList ".git".toList (segOk_noSlash _ hn) hnw (Or.inr rfl)]
  unfold parseGitUrl
  rw [hlist, jsTrim_eq_self _ hws, hstrip]
  dsimp only
  rw [sshMatch_some h.toList o.toList (n.toList ++ ".git".toList) hh.1
    (segOk_noColon _ hh) ho.1 (segOk_noSlash _ ho)]
  rw [repoGroup_git n.toList hn.1]
  rfl

lemma parse_https_plain (h o n : String) (hh : segOk h.toList) (ho : segOk o.toList)
    (hn : segOk n.toList) (hhw : h.toList ∉ UI_WORDS) (how : o.toList ∉ UI_WORDS)
    (hnw : n.toList ∉ UI_WORDS)
    (hng : (".git".toList).isSuffixOf n.toList = false) :
    (parseGitUrl ("https://" ++ h ++ "/" ++ o ++ "/" ++ n)).map generateRepoId =
      Except.ok (h ++ ":" ++ o ++ "/" ++ n) := by
  have hlist : ("https://" ++ h ++ "/" ++ o ++ "/" ++ n).toList =
      ['h', 't', 't', 'p', 's', ':'] ++
        ('/' :: ([] ++ '/' :: (h.toList ++ '/' :: (o.toList ++ '/' :: n.toList)))) := by
    simp only [String.toList, String.data_append]
    simp [List.append_assoc]
  have hws : ∀ c ∈ ['h', 't', 't', 'p', 's', ':'] ++
      ('/' :: ([] ++ '/' :: (h.toList ++ '/' :: (o.toList ++ '/' :: n.toList)))),
      isJsWs c = false :=
    noWs_append _ _ (by decide) (noWs_cons _ _ (by decide)
      (noWs_append _ _ (fun c hc => absurd hc (List.not_mem_nil c))
        (noWs_cons _ _ (by decide) (noWs_append _ _ (segOk_noWs _ hh)
          (noWs_cons _ _ (by decide) (noWs_append _ _ (segOk_noWs _ ho)
            (noWs_cons _ _ (by decide) (segOk_noWs _ hn))))))))
  have hlast : stripUi ('/' :: n.toList) = '/' :: n.toList := by
    have h2 := strip_last_seg n.toList [] (segOk_noSlash _ hn) hnw (Or.inl rfl)
    simpa using h2
  have hstrip : stripUi (['h', 't', 't', 'p', 's', ':'] ++
      ('/' :: ([] ++ '/' :: (h.toList ++ '/' :: (o.toList ++ '/' :: n.toList))))) =
      ['h', 't', 't', 'p', 's', ':'] ++
        ('/' :: ([] ++ '/' :: (h.toList ++ '/' :: (o.toList ++ '/' :: n.toList)))) := by
    rw [stripUi_append_noSlash _ _ (by decide),
      strip_mid_seg [] _ (fun c hc => absurd hc (List.not_mem_nil c)) (by decide),
      strip_mid_seg h.toList _ (segOk_noSlash _ hh) hhw,
      strip_mid_seg o.toList _ (segOk_noSlash _ ho) how, hlast]
  have hhttps : httpsMatch (['h', 't', 't', 'p', 's', ':'] ++
      ('/' :: ([] ++ '/' :: (h.toList ++ '/' :: (o.toList ++ '/' :: n.toList))))) =
      httpsMatchTail (h.toList ++ '/' :: (o.toList ++ '/' :: n.toList)) := rfl
  unfold parseGitUrl
  rw [hlist, jsTrim_eq_self _ hws, hstrip]
  dsimp only
  rw [hhttps, httpsMatchTail_some h.toList o.toList n.toList hh.1
    (segOk_noSlash _ hh) ho.1 (segOk_noSlash _ ho)]
  rw [repoGroup_plain n.toList hn.1 hng]
  rfl

lemma parse_https_git (h o n : String) (hh : segOk h.toList) (ho : segOk o.toList)
    (hn : segOk n.toList) (hhw : h.toList ∉ UI_WORDS) (how : o.toList ∉ UI_WORDS)
    (hnw : n.toList ∉ UI_WORDS) :
    (parseGitUrl ("https://" ++ h ++ "/" ++ o ++ "/" ++ n ++ ".git")).map generateRepoId =
      Except.ok (h ++ ":" ++ o ++ "/" ++ n) := by
  have hlist : ("https://" ++ h ++ "/" ++ o ++ "/" ++ n ++ ".git").toList =
      ['h', 't', 't', 'p', 's', ':'] ++
        ('/' :: ([] ++ '/' :: (h.toList ++ '/' ::
          (o.toList ++ '/' :: (n.toList ++ ".git".toList))))) := by
    simp only [String.toList, String.data_append]
    simp [List.append_assoc]
  have hws : ∀ c ∈ ['h', 't', 't', 'p', 's', ':'] ++
      ('/' :: ([] ++ '/' :: (h.toList ++ '/' ::
        (o.toList ++ '/' :: (n.toList ++ ".git".toList))))),
      isJsWs c = false :=
    noWs_append _ _ (by decide) (noWs_cons _ _ (by decide)
      (noWs_append _ _ (fun c hc => absurd hc (List.not_mem_nil c))
        (noWs_cons _ _ (by decide) (noWs_append _ _ (segOk_noWs _ hh)
          (noWs_cons _ _ (by decide) (noWs_append _ _ (segOk_noWs _ ho)
            (noWs_cons _ _ (by decide) (noWs_append _ _ (segOk_noWs _ hn)
              (by decide)))))))))
  have hstrip : stripUi (['h', 't', 't', 'p', 's', ':'] ++
      ('/' :: ([] ++ '/' :: (h.toList ++ '/' ::
        (o.toList ++ '/' :: (n.toList ++ ".git".toList)))))) =
      ['h', 't', 't', 'p', 's', ':'] ++
        ('/' :: ([] ++ '/' :: (h.toList ++ '/' ::
          (o.toList ++ '/' :: (n.toList ++ ".git".toList))))) := by
    rw [stripUi_append_noSlash _ _ (by decide),
      strip_mid_seg [] _ (fun c hc => absurd hc (List.not_mem_nil c)) (by decide),
      strip_mid_seg h.toList _ (segOk_noSlash _ hh) hhw,
      strip_mid_seg o.toList _ (segOk_noSlash _ ho) how,
      strip_last_seg n.toList ".git".toList (segOk_noSlash _ hn) hnw (Or.inr rfl)]
  have hhttps : httpsMatch (['h', 't', 't', 'p', 's', ':'] ++
      ('/' :: ([] ++ '/' :: (h.toList ++ '/' ::
        (o.toList ++ '/' :: (n.toList ++ ".git".toList)))))) =
      httpsMatchTail (h.toList ++ '/' ::
        (o.toList ++ '/' :: (n.toList ++ ".git".toList))) := rfl
  unfold parseGitUrl
  rw [hlist, jsTrim_eq_self _ hws, hstrip]
  dsimp only
  rw [hhttps, httpsMatchTail_some h.toList o.toList (n.toList ++ ".git".toList)
    hh.1 (segOk_noSlash _ hh) ho.1 (segOk_noSlash _ ho)]
  rw [repoGroup_git n.toList hn.1]
  rfl

lemma parse_http_plain (h o n : String) (hh : segOk h.toList) (ho : segOk o.toList)
    (hn : segOk n.toList) (hhw : h.toList ∉ UI_WORDS) (how : o.toList ∉ UI_WORDS)
    (hnw : n.toList ∉ UI_WORDS)
    (hng : (".git".toList).isSuffixOf n.toList = false) :
    (parseGitUrl ("http://" ++ h ++ "/" ++ o ++ "/" ++ n)).map generateRepoId =
      Except.ok (h ++ ":" ++ o ++ "/" ++ n) := by
  have hlist : ("http://" ++ h ++ "/" ++ o ++ "/" ++ n).toList =
      ['h', 't', 't', 'p', ':'] ++
        ('/' :: ([] ++ '/' :: (h.toList ++ '/' :: (o.toList ++ '/' :: n.toList)))) := by
    simp only [String.toList, String.data_append]
    simp [List.append_assoc]
  have hws : ∀ c ∈ ['h', 't', 't', 'p', ':'] ++
      ('/' :: ([] ++ '/' :: (h.toList ++ '/' :: (o.toList ++ '/' :: n.toList)))),
      isJsWs c = false :=
    noWs_append _ _ (by decide) (noWs_cons _ _ (by decide)
      (noWs_append _ _ (fun c hc => absurd hc (List.not_mem_nil c))
        (noWs_cons _ _ (by decide) (noWs_append _ _ (segOk_noWs _ hh)
          (noWs_cons _ _ (by decide) (noWs_append _ _ (segOk_noWs _ ho)
            (noWs_cons _ _ (by decide) (segOk_noWs _ hn))))))))
  have hlast : stripUi ('/' :: n.toList) = '/' :: n.toList := by
    have h2 := strip_last_seg n.toList [] (segOk_noSlash _ hn) hnw (Or.inl rfl)
    simpa using h2
  have hstrip : stripUi (['h', 't', 't', 'p', ':'] ++
      ('/' :: ([] ++ '/' :: (h.toList ++ '/' :: (o.toList ++ '/' :: n.toList))))) =
      ['h', 't', 't', 'p', ':'] ++
        ('/' :: ([] ++ '/' :: (h.toList ++ '/' :: (o.toList ++ '/' :: n.toList)))) := by
    rw [stripUi_append_noSlash _ _ (by decide),
      strip_mid_seg [] _ (fun c hc => absurd hc (List.not_mem_nil c)) (by decide),
      strip_mid_seg h.toList _ (segOk_noSlash _ hh) hhw,
      strip_mid_seg o.toList _ (segOk_noSlash _ ho) how, hlast]
  have hhttps : httpsMatch (['h', 't', 't', 'p', ':'] ++
      ('/' :: ([] ++ '/' :: (h.toList ++ '/' :: (o.toList ++ '/' :: n.toList))))) =
      httpsMatchTail (h.toList ++ '/' :: (o.toList ++ '/' :: n.toList)) := rfl
  unfold parseGitUrl
  rw [hlist, jsTrim_eq_self _ hws, hstrip]
  dsimp only
  rw [hhttps, httpsMatchTail_some h.toList o.toList n.toList hh.1
    (segOk_noSlash _ hh) ho.1 (segOk_noSlash _ ho)]
  rw [repoGroup_plain n.toList hn.1 hng]
  rfl

lemma parse_https_ui (h o n : String) (hh : segOk h.toList) (ho : segOk o.toList)
    (hn : segOk n.toList) (hhw : h.toList ∉ UI_WORDS) (how : o.toList ∉ UI_WORDS)
    (hnw : n.toList ∉ UI_WORDS)
    (hng : (".git".toList).isSuffixOf n.toList = false) :
    (parseGitUrl ("https://" ++ h ++ "/" ++ o ++ "/" ++ n ++ "/tree/main")).map
        generateRepoId =
      Except.ok (h ++ ":" ++ o ++ "/" ++ n) := by
  have hlist : ("https://" ++ h ++ "/" ++ o ++ "/" ++ n ++ "/tree/main").toList =
      ['h', 't', 't', 'p', 's', ':'] ++
        ('/' :: ([] ++ '/' :: (h.toList ++ '/' :: (o.toList ++ '/' ::
          (n.toList ++ '/' :: ("tree".toList ++ '/' :: "main".toList)))))) := by
    simp only [String.toList, String.data_append]
    simp [List.append_assoc]
  have hws : ∀ c ∈ ['h', 't', 't', 'p', 's', ':'] ++
      ('/' :: ([] ++ '/' :: (h.toList ++ '/' :: (o.toList ++ '/' ::
        (n.toList ++ '/' :: ("tree".toList ++ '/' :: "main".toList)))))),
      isJsWs c = false :=
    noWs_append _ _ (by decide) (noWs_cons _ _ (by decide)
      (noWs_append _ _ (fun c hc => absurd hc (List.not_mem_nil c))
        (noWs_cons _ _ (by decide) (noWs_append _ _ (segOk_noWs _ hh)
          (noWs_cons _ _ (by decide) (noWs_append _ _ (segOk_noWs _ ho)
            (noWs_cons _ _ (by decide) (noWs_append _ _ (segOk_noWs _ hn)
              (noWs_cons _ _ (by decide) (noWs_append _ _ (by decide)
                (noWs_cons _ _ (by decide) (by decide))))))))))))
  have hstrip : stripUi (['h', 't', 't', 'p', 's', ':'] ++
      ('/' :: ([] ++ '/' :: (h.toList ++ '/' :: (o.toList ++ '/' ::
        (n.toList ++ '/' :: ("tree".toList ++ '/' :: "main".toList))))))) =
      ['h', 't', 't', 'p', 's', ':'] ++
        ('/' :: ([] ++ '/' :: (h.toList ++ '/' :: (o.toList ++ '/' :: n.toList)))) := by
    rw [stripUi_append_noSlash _ _ (by decide),
      strip_mid_seg [] _ (fun c hc => absurd hc (List.not_mem_nil c)) (by decide),
      strip_mid_seg h.toList _ (segOk_noSlash _ hh) hhw,
      strip_mid_seg o.toList _ (segOk_noSlash _ ho) how,
      strip_mid_seg n.toList _ (segOk_noSlash _ hn) hnw,
      strip_ui_tail "tree".toList ('/' :: "main".toList) (by decide)
        (Or.inr ⟨"main".toList, rfl⟩)]
    simp
  have hhttps : httpsMatch (['h', 't', 't', 'p', 's', ':'] ++
      ('/' :: ([] ++ '/' :: (h.toList ++ '/' :: (o.toList ++ '/' :: n.toList))))) =
      httpsMatchTail (h.toList ++ '/' :: (o.toList ++ '/' :: n.toList)) := rfl
  unfold parseGitUrl
  rw [hlist, jsTrim_eq_self _ hws, hstrip]
  dsimp only
  rw [hhttps, httpsMatchTail_some h.toList o.toList n.toList hh.1
    (segOk_noSlash _ hh) ho.1 (segOk_noSlash _ ho)]
  rw [repoGroup_plain n.toList hn.1 hng]
  rfl

/-- C7 (amended): the claim quantifies over every `user@host:owner/name`
SSH form, but `parseGitUrl` only accepts the literal user `git` (see the
counterexample for `alice@...`), and the web-UI stripping removes any
path segment equal to a reserved word (tree, blob, ...) anywhere in the
URL.  Restricted to the literal `git@` user and to host/owner/name
segments that are non-empty, free of `/`, `:` and whitespace, not equal
to a reserved web-UI word, and (for the name) not themselves ending in
`.git`, the identity is stable: the SSH form, the HTTP and HTTPS forms,
each with or without a `.git` suffix, and the HTTPS form with a web-UI
`/tree/main` suffix all parse successfully and `generateRepoId` returns
the identical id `host:owner/name`. -/
theorem parseGitUrl_id_stable (h o n : String) (hh : segOk h.toList)
    (ho : segOk o.toList) (hn : segOk n.toList)
    (hhw : h.toList ∉ UI_WORDS) (how : o.toList ∉ UI_WORDS)
    (hnw : n.toList ∉ UI_WORDS)
    (hng : (".git".toList).isSuffixOf n.toList = false) :
    (parseGitUrl ("git@" ++ h ++ ":" ++ o ++ "/" ++ n)).map generateRepoId =
        Except.ok (h ++ ":" ++ o ++ "/" ++ n) ∧
    (parseGitUrl ("git@" ++ h ++ ":" ++ o ++ "/" ++ n ++ ".git")).map generateRepoId =
        Except.ok (h ++ ":" ++ o ++ "/" ++ n) ∧
    (parseGitUrl ("https://" ++ h ++ "/" ++ o ++ "/" ++ n)).map generateRepoId =
        Except.ok (h ++ ":" ++ o ++ "/" ++ n) ∧
    (parseGitUrl ("https://" ++ h ++ "/" ++ o ++ "/" ++ n ++ ".git")).map generateRepoId =
        Except.ok (h ++ ":" ++ o ++ "/" ++ n) ∧
    (parseGitUrl ("http://" ++ h ++ "/" ++ o ++ "/" ++ n)).map generateRepoId =
        Except.ok (h ++ ":" ++ o ++ "/" ++ n) ∧
    (parseGitUrl ("https://" ++ h ++ "/" ++ o ++ "/" ++ n ++ "/tree/main")).map
        generateRepoId =
        Except.ok (h ++ ":" ++ o ++ "/" ++ n) :=
  ⟨parse_ssh_plain h o n hh ho hn hnw hng,
   parse_ssh_git h o n hh ho hn hnw,
   parse_https_plain h o n hh ho hn hhw how hnw hng,
   parse_https_git h o n hh ho hn hhw how hnw,
   parse_http_plain h o n hh ho hn hhw how hnw hng,
   parse_https_ui h o n hh ho hn hhw how hnw hng⟩

/-- Concrete instance of the id-stability theorem at
`(github.com, owner, repo)`. -/
theorem parseGitUrl_id_stable_witness :
    (parseGitUrl ("git@" ++ "github.com" ++ ":" ++ "owner" ++ "/" ++ "repo")).map
        generateRepoId =
        Except.ok ("github.com" ++ ":" ++ "owner" ++ "/" ++ "repo") ∧
    (parseGitUrl ("git@" ++ "github.com" ++ ":" ++ "owner" ++ "/" ++ "repo" ++ ".git")).map
        generateRepoId =
        Except.ok ("github.com" ++ ":" ++ "owner" ++ "/" ++ "repo") ∧
    (parseGitUrl ("https://" ++ "github.com" ++ "/" ++ "owner" ++ "/" ++ "repo")).map
        generateRepoId =
        Except.ok ("github.com" ++ ":" ++ "owner" ++ "/" ++ "repo") ∧
    (parseGitUrl ("https://" ++ "github.com" ++ "/" ++ "owner" ++ "/" ++ "repo" ++ ".git")).map
        generateRepoId =
        Except.ok ("github.com" ++ ":" ++ "owner" ++ "/" ++ "repo") ∧
    (parseGitUrl ("http://" ++ "github.com" ++ "/" ++ "owner" ++ "/" ++ "repo")).map
        generateRepoId =
        Except.ok ("github.com" ++ ":" ++ "owner" ++ "/" ++ "repo") ∧
    (parseGitUrl ("https://" ++ "github.com" ++ "/" ++ "owner" ++ "/" ++ "repo" ++ "/tree/main")).map
        generateRepoId =
        Except.ok ("github.com" ++ ":" ++ "owner" ++ "/" ++ "repo") :=
  parseGitUrl_id_stable "github.com" "owner" "repo"
    (by unfold segOk; decide) (by unfold segOk; decide) (by unfold segOk; decide)
    (by decide) (by decide) (by decide) (by decide)
